import Mathlib

/-!
Verification of the hissdb query-construction library (shallow embedding).

The Python sources embedded here are:
  hissdb/expression.py  — Expression construction, rendering, operators,
                          placeholder allocation, type inference
  hissdb/functions.py   — named SQL function wrappers
  hissdb/statements.py  — Select clause assembly and the implicit-join
                          resolver
Machine integers do not occur; Python ints are modelled as Int/Nat, Python
floats appear only as opaque stored payloads (modelled as Rat: the embedded
code never computes with them, it only stores and compares them).
Python dicts are modelled as association lists with insertion-order
semantics (insert updates in place when the key exists, else appends).
Recursive Python functions that can exceed the interpreter stack are
modelled with an explicit fuel parameter; running out of fuel is a distinct
outcome and never identified with a normal result.
-/

namespace HissDB

/-- A scalar Python value that can appear as an `Expression` argument:
`int`, `float` or `str`.  Floats are stored, never computed with, so a
`Rat` payload is an exact model of the identity of the stored value. -/
inductive Val where
  | i : Int → Val
  | f : Rat → Val
  | s : String → Val
deriving DecidableEq, Repr

/-- `Expression._literals` (expression.py lines 28-34): strings that are
not converted to placeholders. -/
def literals : List String :=
  ["=", "==", "%", ">", ">=", "<", "<=", "!=", "!<", "!>", "~", "<>",
   "&", "||", "+", "-", "/", "*", ">>", "<<", "LIKE", "NOT", "NOT LIKE",
   "NOT IN", "SELECT", "FROM", "WHERE", "IN", "BETWEEN", "NOT BETWEEN",
   "GLOB", "EXISTS", "NOT EXISTS", "UNIQUE", "NULL", "NOT NULL", "AND",
   "OR", "AS", "(", ")", "DISTINCT", "ALL", "ASC", "DESC"]

/-- Python membership `arg in _literals`: an `int` or `float` never equals
any of the literal strings, so only strings can pass the whitelist. -/
def Val.isLiteral : Val → Bool
  | .s st => literals.contains st
  | _ => false

/-- A table.  Python compares `Table` objects by identity; the `id` field
models object identity, `name` models `Table._name` (its `__str__`). -/
structure Tbl where
  id : Nat
  name : String
deriving DecidableEq, Repr

/-- A column, identified (per the data-model invariant) by its table and
name.  `Column.__str__` renders as `table.name`.  `declType` is the
declared SQLite type string (`Column.type`, read by `type_`). -/
structure Col where
  tbl : Tbl
  name : String
  declType : String := "TEXT"
deriving DecidableEq, Repr

mutual
/-- `Expression` (expression.py): the stored fields set by `__init__`, in
order: `args` (the original constructor arguments, kept because
`__invert__` and `type_` read them), `tokens`, `placeholders`
(keys are the placeholder names WITHOUT the leading colon, exactly as
`self.placeholders[placeholder[1:]] = arg` stores them), the deduplicated
`_necessary_tables`, `func` and `prefix`. -/
inductive Expr where
  | mk : List Arg → List Token → List (String × Val) → List Tbl →
         Option String → Option String → Expr

/-- One positional argument to `Expression.__init__`.  `expr` also covers
`Column`/statement instances flowing through the `issubclass` branch only
when they are built as expressions; a genuine `Column` argument is `col`
(its class-module check and the subclass branch produce the same state
change: no placeholders, `_necessary_tables += [column._table]`).
`other` is any unsupported Python object (raises `SyntaxError`). -/
inductive Arg where
  | val : Val → Arg
  | null : Arg
  | expr : Expr → Arg
  | col : Col → Arg
  | table : Tbl → Arg
  | other : Arg

/-- One element of `Expression.tokens`: either a plain string (a literal
keyword, `NULL`, or an allocated placeholder such as `:17`) or the
original `Expression`/`Column`/`Table` object. -/
inductive Token where
  | str : String → Token
  | expr : Expr → Token
  | col : Col → Token
  | table : Tbl → Token
end

def Expr.args : Expr → List Arg
  | .mk a _ _ _ _ _ => a

def Expr.tokens : Expr → List Token
  | .mk _ t _ _ _ _ => t

def Expr.placeholders : Expr → List (String × Val)
  | .mk _ _ p _ _ _ => p

def Expr.necessaryTables : Expr → List Tbl
  | .mk _ _ _ n _ _ => n

def Expr.func : Expr → Option String
  | .mk _ _ _ _ f _ => f

def Expr.prefx : Expr → Option String
  | .mk _ _ _ _ _ p => p

/-! ### Python dict operations, as insertion-ordered association lists -/

/-- `d[k]` lookup: first binding for `k`. -/
def dget {α β : Type} [DecidableEq α] (d : List (α × β)) (k : α) :
    Option β :=
  (d.find? (fun p => decide (p.1 = k))).map Prod.snd

/-- The key list of a dict, in insertion order. -/
def dkeys {α β : Type} (d : List (α × β)) : List α :=
  d.map Prod.fst

/-- `k in d`. -/
def dmem {α β : Type} [DecidableEq α] (d : List (α × β)) (k : α) : Bool :=
  (d.map Prod.fst).contains k

/-- `d[k] = v`: update in place if `k` is present, else append. -/
def dinsert {α β : Type} [DecidableEq α] (d : List (α × β)) (k : α)
    (v : β) : List (α × β) :=
  if dmem d k then
    d.map (fun p => if p.1 = k then (k, v) else p)
  else
    d ++ [(k, v)]

/-- `d.update(d2)`: insert every binding of `d2`, in order. -/
def dupdate {α β : Type} [DecidableEq α] (d d2 : List (α × β)) :
    List (α × β) :=
  d2.foldl (fun acc p => dinsert acc p.1 p.2) d

/-! ### The placeholder counter (expression.py lines 5-6, 386-392) -/

def MAX_PLACEHOLDER : Nat := 9999999

/-- `next_placeholder`: takes the current value of the module-global
`CURRENT_PLACEHOLDER` and returns the produced placeholder string together
with the new counter value. -/
def next_placeholder (cur : Nat) : String × Nat :=
  if cur > MAX_PLACEHOLDER then (":" ++ Nat.repr 1, 1)
  else (":" ++ Nat.repr (cur + 1), cur + 1)

/-- Counter state after `k` calls to `next_placeholder`, starting from the
initial module state `CURRENT_PLACEHOLDER = 0`. -/
def counterAfter : Nat → Nat
  | 0 => 0
  | k + 1 => (next_placeholder (counterAfter k)).2

/-- The placeholder string produced by the `(k+1)`-th call ever made
(so `callName 0` is the first call's result). -/
def callName (k : Nat) : String :=
  (next_placeholder (counterAfter k)).1

/-! ### `Expression.__init__` (expression.py lines 36-87) -/

/-- The loop state of `Expression.__init__`: the accumulating
`placeholders`, raw `_necessary_tables` (pre-dedup), `tokens`, and the
global placeholder counter. -/
structure InitSt where
  ph : List (String × Val)
  nt : List Tbl
  tk : List Token
  cur : Nat

/-- One iteration of the `for arg in args` loop. `Arg.other` is the
`SyntaxError` raise for unsupported types. -/
def initStep (st : InitSt) : Arg → Except Unit InitSt
  | .expr e =>
      .ok { st with ph := dupdate st.ph e.placeholders,
                    nt := st.nt ++ e.necessaryTables,
                    tk := st.tk ++ [.expr e] }
  | .col c =>
      .ok { st with nt := st.nt ++ [c.tbl], tk := st.tk ++ [.col c] }
  | .table t =>
      .ok { st with nt := st.nt ++ [t], tk := st.tk ++ [.table t] }
  | .null =>
      .ok { st with tk := st.tk ++ [.str "NULL"] }
  | .other => .error ()
  | .val v =>
      if v.isLiteral then
        -- only a string can be a literal; it is appended verbatim
        match v with
        | .s s => .ok { st with tk := st.tk ++ [.str s] }
        | _ => .error ()   -- unreachable: ints/floats are never literals
      else
        let pc := next_placeholder st.cur
        .ok { st with
              ph := dinsert st.ph (Nat.repr pc.2) v,
              tk := st.tk ++ [.str pc.1],
              cur := pc.2 }

/-- The whole `for` loop. -/
def initLoop : List Arg → InitSt → Except Unit InitSt
  | [], st => .ok st
  | a :: rest, st =>
      match initStep st a with
      | .ok st2 => initLoop rest st2
      | .error e => .error e

/-- `Expression.__init__(*args, func=..., prefix=...)`, threading the
global counter.  The final `list(set(_necessary_tables))` dedup is modelled
as `eraseDups` (first occurrences kept; Python set order is unspecified and
no claim depends on it, only on membership). -/
def initExpr (args : List Arg) (func pfx : Option String) (cur : Nat) :
    Except Unit (Expr × Nat) :=
  match initLoop args ⟨[], [], [], cur⟩ with
  | .ok st => .ok (.mk args st.tk st.ph st.nt.eraseDups func pfx, st.cur)
  | .error e => .error e

/-! ### Rendering: `Expression.__str__` (expression.py lines 90-103) -/

/-- Python `str.replace`: replace all occurrences, scanning left to right,
non-overlapping.  Fueled by the length of the string (one character or one
whole match is consumed per step). -/
def replaceAux (pat rep : List Char) : Nat → List Char → List Char
  | 0, _ => []
  | _ + 1, [] => []
  | fuel + 1, c :: rest =>
      if pat ≠ [] ∧ pat.isPrefixOf (c :: rest) then
        rep ++ replaceAux pat rep fuel ((c :: rest).drop pat.length)
      else
        c :: replaceAux pat rep fuel rest

def pyReplace (s pat rep : String) : String :=
  ⟨replaceAux pat.data rep.data s.data.length s.data⟩

/-- The two replacements `__str__` applies to the joined token text:
`'( '` → `'('` then `' )'` → `')'`. -/
def pyClean (s : String) : String :=
  pyReplace (pyReplace s "( " "(") " )" ")"

/-- `str(token)` for the non-Expression tokens: a plain string is itself,
`Column.__str__` is `table.name`, `Table.__str__` is its name. -/
def strTokenWith (rec : Expr → Option String) : Token → Option String
  | .str s => some s
  | .expr e => rec e
  | .col c => some (c.tbl.name ++ "." ++ c.name)
  | .table t => some t.name

/-- `Expression.__str__`, fueled against unbounded nesting (`none` models
exceeding the interpreter recursion limit; the real code never fails
otherwise). -/
def strExpr : Nat → Expr → Option String
  | 0, _ => none
  | fuel + 1, .mk _ tokens _ _ func pfx => do
      let strs ← tokens.mapM (strTokenWith (strExpr fuel))
      let joiner := if func.isSome then ", " else " "
      let out1 := pyClean (String.intercalate joiner strs)
      let out2 := match pfx with
                  | some p => p ++ " " ++ out1
                  | none => out1
      match func with
      | some f => some (f ++ "(" ++ out2 ++ ")")
      | none => some out2

/-! ### Operator methods that never allocate placeholders -/

/-- `Expression.__and__`: `__class__(self, 'AND', other)`.  All three
arguments are an Expression or a whitelisted literal, so construction
allocates nothing and the counter is untouched; `initExpr_and` below
checks this against `initExpr`. -/
def pyAnd (A B : Expr) : Expr :=
  .mk [.expr A, .val (.s "AND"), .expr B]
      [.expr A, .str "AND", .expr B]
      (dupdate (dupdate [] A.placeholders) B.placeholders)
      (A.necessaryTables ++ B.necessaryTables).eraseDups
      none none

/-- `Expression.__or__`:
`__class__('(', self, ')', 'OR', '(', other, ')')`. -/
def pyOr (A B : Expr) : Expr :=
  .mk [.val (.s "("), .expr A, .val (.s ")"), .val (.s "OR"),
       .val (.s "("), .expr B, .val (.s ")")]
      [.str "(", .expr A, .str ")", .str "OR", .str "(", .expr B, .str ")"]
      (dupdate (dupdate [] A.placeholders) B.placeholders)
      (A.necessaryTables ++ B.necessaryTables).eraseDups
      none none

/-! ### Aggregate and string wrappers (expression.py, functions.py) -/

/-- `Expression.max` (expression.py 266-270): honors `distinct`. -/
def maxMethod (e : Expr) (distinct : Bool) (cur : Nat) :
    Except Unit (Expr × Nat) :=
  initExpr [.expr e] (some "MAX")
    (if distinct then some "DISTINCT" else none) cur

/-- `Expression.min` (expression.py 272-274): the `distinct` parameter is
accepted but never used — `__class__(self, func='MIN')`. -/
def minMethod (e : Expr) (_distinct : Bool) (cur : Nat) :
    Except Unit (Expr × Nat) :=
  initExpr [.expr e] (some "MIN") none cur

/-- `Expression.avg` (expression.py 276-280): honors `distinct`. -/
def avgMethod (e : Expr) (distinct : Bool) (cur : Nat) :
    Except Unit (Expr × Nat) :=
  initExpr [.expr e] (some "AVG")
    (if distinct then some "DISTINCT" else none) cur

/-- `functions.max` (functions.py 149-154). -/
def fnMax (args : List Arg) (distinct : Bool) (cur : Nat) :
    Except Unit (Expr × Nat) :=
  initExpr args (some "MAX") (if distinct then some "DISTINCT" else none) cur

/-- `functions.min` (functions.py 156-161). -/
def fnMin (args : List Arg) (distinct : Bool) (cur : Nat) :
    Except Unit (Expr × Nat) :=
  initExpr args (some "MIN") (if distinct then some "DISTINCT" else none) cur

/-- `Expression.lstrip` (expression.py 356-360).  Python tests the
character with `if character:`, so an empty string behaves like `None`. -/
def lstripMethod (e : Expr) (character : Option String) (cur : Nat) :
    Except Unit (Expr × Nat) :=
  match character with
  | some c =>
      if c = "" then initExpr [.expr e] (some "LTRIM") none cur
      else initExpr [.expr e, .val (.s c)] (some "LTRIM") none cur
  | none => initExpr [.expr e] (some "LTRIM") none cur

/-- `Expression.rstrip` (expression.py 362-366): with a truthy character it
uses the lowercase function name `'rtrim'`; with no character it uses
`'LTRIM'` (not `'RTRIM'`). -/
def rstripMethod (e : Expr) (character : Option String) (cur : Nat) :
    Except Unit (Expr × Nat) :=
  match character with
  | some c =>
      if c = "" then initExpr [.expr e] (some "LTRIM") none cur
      else initExpr [.expr e, .val (.s c)] (some "rtrim") none cur
  | none => initExpr [.expr e] (some "LTRIM") none cur

/-! ### `Expression.__invert__` (expression.py lines 147-201) -/

/-- The `opposites` table, in source order (note `'<>'` occurs in two
pairs; the first match wins, as in the Python loop). -/
def opposites : List (String × String) :=
  [("LIKE", "NOT LIKE"), ("IN", "NOT IN"), ("BETWEEN", "NOT BETWEEN"),
   ("IS", "IS NOT"), ("EXISTS", "NOT EXISTS"), ("<>", "="), ("==", "<>"),
   ("<", ">="), (">", "<="), ("AND", "OR")]

def findOppositeGo (op : String) : List (String × String) → Option String
  | [] => none
  | (a, b) :: rest =>
      if op = a ∨ op = b then some (if op = b then a else b)
      else findOppositeGo op rest

/-- The `for a, b in opposites` loop: the replacement operator, or `none`
for the `for`-`else` `NotImplementedError`. -/
def findOpposite (op : String) : Option String :=
  findOppositeGo op opposites

/-- The operator-selection prelude of `__invert__` (lines 157-168):
returns the detected operator and the (possibly reduced) working argument
list, or `none` for the `operator = None` path.  Python tests `if func:`
(truthy), so an empty function name falls through to the shape checks. -/
def operMatch (args : List Arg) : Option (String × List Arg) :=
  match args with
  | [a0, .val (.s s), a2] => some (s, [a0, .val (.s s), a2])
  | [_, a1, _, .val (.s o3), _, a5, _] =>
      -- Python `args[3] == 'OR'`; an Expression in that slot would compare
      -- truthy through `__eq__` overloading, a path no claim exercises and
      -- not modelled here.
      if o3 = "OR" then some ("OR", [a1, .val (.s o3), a5]) else none
  | _ => none

def operatorOf (func : Option String) (args : List Arg) :
    Option (String × List Arg) :=
  match func with
  | some f => if f = "" then operMatch args else some (f, args)
  | none => operMatch args

/-- `~` applied to a working argument: only an Expression operand is
invertible through `Expression.__invert__`.  (Python would apply bitwise
complement to a raw int, or raise `TypeError` on other operands; both are
modelled as failure — no claim exercises those paths.) -/
def invertArgWith (rec : Expr → Nat → Except Unit (Expr × Nat)) :
    Arg → Nat → Except Unit (Expr × Nat)
  | .expr e, cur => rec e cur
  | _, _ => .error ()

/-- `Expression.__invert__`, threading the placeholder counter (the
generic reconstruction can parameterize a non-whitelisted operator such as
`'IS NOT'`).  `.error` covers `NotImplementedError`, Python `IndexError`
on short argument lists, and fuel exhaustion (recursion limit). -/
def invert : Nat → Expr → Nat → Except Unit (Expr × Nat)
  | 0, _, _ => .error ()
  | fuel + 1, .mk args _ _ _ func _, cur =>
      match operatorOf func args with
      | none => .error ()
      | some (op, wargs) =>
        match findOpposite op with
        | none => .error ()
        | some newOp =>
          if op = "OR" then
            match wargs.get? 0, wargs.get? 2 with
            | some a0, some a2 => do
                let r1 ← invertArgWith (invert fuel) a0 cur
                let r2 ← invertArgWith (invert fuel) a2 r1.2
                .ok (pyAnd r1.1 r2.1, r2.2)
            | _, _ => .error ()
          else if op = "AND" then
            match wargs.get? 0, wargs.get? 2 with
            | some a0, some a2 => do
                let r1 ← invertArgWith (invert fuel) a0 cur
                let r2 ← invertArgWith (invert fuel) a2 r1.2
                .ok (pyOr r1.1 r2.1, r2.2)
            | _, _ => .error ()
          else
            match func with
            | some f =>
                if f = "" then
                  match wargs with
                  | [w0, _, w2] =>
                      initExpr [w0, .val (.s newOp), w2] none none cur
                  | _ => .error ()
                else initExpr wargs (some newOp) none cur
            | none =>
                match wargs with
                | [w0, _, w2] =>
                    initExpr [w0, .val (.s newOp), w2] none none cur
                | _ => .error ()

/-! ### Type inference: `type_` (expression.py lines 394-458) -/

inductive Ty where
  | int | float | str | bool | bytes | noneT | other
deriving DecidableEq, Repr

inductive TyErr where
  | notImplemented   -- the explicit NotImplementedError raises
  | nameError        -- line 431: the unbound name `tokens`
  | indexError       -- `value.args[0]` on an empty argument list
deriving DecidableEq, Repr

/-- The Column branch of `type_` (lines 399-412), from the column's
declared SQLite type. -/
def typeOfCol (c : Col) : Except TyErr Ty :=
  if c.declType = "INTEGER" then .ok .int
  else if c.declType = "REAL" then .ok .float
  else if c.declType = "TEXT" then .ok .str
  else if c.declType = "BLOB" then .ok .bytes
  else .error .notImplemented

def typeOfVal : Val → Ty
  | .i _ => .int
  | .f _ => .float
  | .s _ => .str

/-- `type_` applied to one stored argument (the recursive calls
`type_(value.args[0])`). -/
def typeOfArgWith (rec : Expr → Option (Except TyErr Ty)) :
    Arg → Option (Except TyErr Ty)
  | .col c => some (typeOfCol c)
  | .expr e => rec e
  | .val v => some (.ok (typeOfVal v))
  | .null => some (.ok .noneT)
  | .table _ => some (.ok .other)
  | .other => some (.ok .other)

/-- The operator list mapped to `bool` (line 425-428 of the source; `'IN'`
is listed twice there). -/
def boolOps : List String :=
  ["LIKE", "AND", "OR", "=", "==", ">", ">=", "<", "<=", "IN", "BETWEEN",
   "IN"]

/-- `type_` on an Expression (exact-type check `type(value) is Expression`
— Columns take the module-check branch, modelled by `typeOfCol`).  `none`
is fuel exhaustion.  Line 439 of the source compares `value.func` with a
whole list (`== ['AVG', 'CEIL', 'FLOOR', 'ROUND']`), which is always
False, so that branch is dead and does not appear here. -/
def typeOfE : Nat → Expr → Option (Except TyErr Ty)
  | 0, _ => none
  | fuel + 1, .mk args tokens _ _ func _ =>
      match func, tokens with
      | none, [_, .str op, _] =>
          if op = "/" then some (.ok .float)
          else if op = "%" then some (.ok .int)
          else if boolOps.contains op then some (.ok .bool)
          else if ["*", "+", "-"].contains op then
            -- line 431: `float in [type_(tokens[0]), type_(tokens[2])]`
            -- where `tokens` is an unbound name → NameError
            some (.error .nameError)
          else
            match args with
            | a0 :: _ => typeOfArgWith (typeOfE fuel) a0
            | [] => some (.error .indexError)
      | none, _ => some (.error .notImplemented)
      | some f, _ =>
          if ["COUNT", "LENGTH", "RANDOM"].contains f then some (.ok .int)
          else if ["UPPER", "LOWER", "SUBSTR", "LTRIM", "RTRIM", "TRIM",
                   "REPLACE", "TYPEOF"].contains f then some (.ok .str)
          else if ["MAX", "MIN", "SUM", "ABS"].contains f then
            match args with
            | a0 :: _ => typeOfArgWith (typeOfE fuel) a0
            | [] => some (.error .indexError)
          else if f = "EXISTS" then some (.ok .bool)
          else some (.error .notImplemented)

/-! ### The implicit-join resolver (statements.py lines 377-468)

Python join maps are dicts keyed by `Table` with `Expression` values, and
they are *mutable objects passed by reference*: `implicit_join` and
`_implicit_join_helper` receive a caller-owned `prior_joins` dict, build
extended dicts with `copy(...)` plus item assignment, and may also return
the received dict unchanged (an alias).  To make aliasing and mutation
observable, dicts live in an explicit store: a `Ref` is a dict object,
`copy` allocates a fresh cell, item assignment writes a cell. -/

/-- The contents of one join dict: insertion-ordered `Table → Expression`
bindings. -/
abbrev JoinList := List (Tbl × Expr)

/-- The heap of join-dict objects. -/
abbrev Store := List JoinList

abbrev Ref := Nat

def getCell (σ : Store) (r : Nat) : JoinList :=
  List.getD σ r []

def setCell (σ : Store) (r : Nat) (d : JoinList) : Store :=
  List.set σ r d

/-- `copy(d)`: a fresh object with the same contents. -/
def allocCell (σ : Store) (d : JoinList) : Store × Nat :=
  (σ ++ [d], List.length σ)

/-- `Expression(key, '=', foreign_key)` (statements.py line 445): both
arguments are Columns, so no placeholder is allocated and the counter is
untouched; `initExpr_joinCond` checks this against `initExpr`. -/
def joinCond (key fk : Col) : Expr :=
  .mk [.col key, .val (.s "="), .col fk]
      [.col key, .str "=", .col fk]
      []
      [key.tbl, fk.tbl].eraseDups
      none none

/-- Lines 440-452 of `_implicit_join_helper`: when the far-side table is
not yet a key of `prior_joins`, `new_joins = copy(prior_joins)` followed by
`new_joins[far] = expr` — a fresh cell; otherwise `new_joins` aliases
`prior_joins`. -/
def helperNew (σ : Store) (prior : Ref) (far : Tbl) (cond : Expr) :
    Store × Ref :=
  if dmem (getCell σ prior) far then (σ, prior)
  else
    let al := allocCell σ (getCell σ prior)
    (setCell al.1 al.2 (dinsert (getCell σ prior) far cond), al.2)

/-- The per-edge body of the `for key, foreign_key in foreign_keys.items()`
loop of `_implicit_join_helper` (lines 431-468), with `rec` the recursive
call into the helper at smaller fuel.  Foreign keys are modelled
post-resolution (the string fallbacks of lines 432-438 resolve names to
Column objects through the table and the database; here every edge is
already a pair of Columns, the key column belonging to the dict's owner).
Returning `none` models exceeding the recursion limit. -/
def helperGo (fks : Tbl → List (Col × Col))
    (rec : Store → Tbl → Ref → Option (Store × Ref))
    (target : Tbl) (rev : Bool) :
    Store → Ref → List (Col × Col) → Option (Store × Ref)
  | σ, prior, [] => some (σ, prior)  -- the `for`-`else`: return prior_joins
  | σ, prior, (key, fk) :: rest =>
      let far : Tbl := if rev then key.tbl else fk.tbl
      let sr : Store × Ref := helperNew σ prior far (joinCond key fk)
      if far = target then some sr
      else
        match rec sr.1 fk.tbl sr.2 with
        | none => none
        | some (σ2, recRef) =>
            if dmem (getCell σ2 recRef) target then some (σ2, recRef)
            else helperGo fks rec target rev σ2 prior rest

/-- `_implicit_join_helper(start_table, target_table, prior_joins,
reverse)` (statements.py lines 419-468). -/
def implicitJoinHelper (fks : Tbl → List (Col × Col)) :
    Nat → Store → Tbl → Tbl → Ref → Bool → Option (Store × Ref)
  | 0, _, _, _, _, _ => none
  | fuel + 1, σ, start, target, prior, rev =>
      let edges := if rev then fks target else fks start
      if edges.isEmpty then some (σ, prior)
      else
        helperGo fks
          (fun σ2 st pr => implicitJoinHelper fks fuel σ2 st target pr rev)
          target rev σ prior edges

/-- Result of scanning `available_tables` for one target. -/
inductive ScanRes where
  | found (σ : Store) (r : Ref)
  | notFound (σ : Store)
  | fuelOut

/-- The `for a in available_tables` loop of `implicit_join`
(lines 397-409): forward traversal first, then reverse; first success
wins; the `for`-`else` is the `SyntaxError` raise. -/
def availScan (fks : Tbl → List (Col × Col)) (hfuel : Nat) (target : Tbl) :
    Store → Ref → List Tbl → ScanRes
  | σ, _, [] => .notFound σ
  | σ, joins, a :: rest =>
      match implicitJoinHelper fks hfuel σ a target joins false with
      | none => .fuelOut
      | some (σ1, fwdRef) =>
          if dmem (getCell σ1 fwdRef) target then .found σ1 fwdRef
          else
            match implicitJoinHelper fks hfuel σ1 a target joins true with
            | none => .fuelOut
            | some (σ2, revRef) =>
                if dmem (getCell σ2 revRef) target then .found σ2 revRef
                else availScan fks hfuel target σ2 joins rest

/-- Outcome of `implicit_join`: a normal return, the `SyntaxError` naming
the table that could not be joined, or fuel exhaustion.  The store is
carried on both completed paths so that mutation (or its absence) of
caller-owned dicts remains observable. -/
inductive JoinOut where
  | ok (σ : Store) (r : Ref)
  | unresolvable (σ : Store) (t : Tbl)
  | fuelOut

/-- The `while i < len(target_tables)` loop (lines 391-415). -/
def joinLoop (fks : Tbl → List (Col × Col)) (hfuel : Nat) :
    List Tbl → List Tbl → Store → Ref → JoinOut
  | [], _, σ, r => .ok σ r
  | t :: rest, avail, σ, r =>
      if avail.contains t then joinLoop fks hfuel rest avail σ r
      else
        match availScan fks hfuel t σ r avail with
        | .found σ1 r1 => joinLoop fks hfuel rest (avail ++ [t]) σ1 r1
        | .notFound σ1 => .unresolvable σ1 t
        | .fuelOut => .fuelOut

/-- `implicit_join(start_table, target_tables, prior_joins)`
(statements.py lines 377-416). -/
def implicit_join (fks : Tbl → List (Col × Col)) (hfuel : Nat) (σ : Store)
    (start : Tbl) (targets : List Tbl) (prior : Ref) : JoinOut :=
  let al := allocCell σ (getCell σ prior)      -- joins = copy(prior_joins)
  let avail := start :: dkeys (getCell σ prior)
  joinLoop fks hfuel targets avail al.1 al.2

inductive JErr where
  | unresolvable (t : Tbl)
  | fuelOut
deriving DecidableEq, Repr

/-- `implicit_join` run on a one-dict heap holding `prior`, returning the
contents of the result dict — the value-level view used by statements. -/
def implicitJoinPure (fks : Tbl → List (Col × Col)) (hfuel : Nat)
    (start : Tbl) (targets : List Tbl) (prior : JoinList) :
    Except JErr JoinList :=
  match implicit_join fks hfuel [prior] start targets 0 with
  | .ok σ r => .ok (getCell σ r)
  | .unresolvable _ t => .error (.unresolvable t)
  | .fuelOut => .error .fuelOut

/-! ### Select clause assembly (statements.py lines 84-102, 312-339)

The statement fields that only ever feed string interpolation and
truthiness tests (`order_by` items, `limit`, `offset`) are modelled at
the type the working Python paths give them: rendered strings for
`order_by` elements (non-strings crash `", ".join`), ints for
`limit`/`offset`.  `group_by` is modelled as a single column/expression
(the list form renders through Python `repr` and no claim touches its
text).  Keyword-argument folding happens before rendering and is not part
of `clauses`, so the model is the post-construction statement. -/

/-- Python `str.startswith`. -/
def pyStartsWith (s p : String) : Bool :=
  p.data.isPrefixOf s.data

/-- A value usable where statements accept a Column or an Expression. -/
inductive SVal where
  | expr : Expr → SVal
  | col : Col → SVal

def strSV (fuel : Nat) : SVal → Option String
  | .expr e => strExpr fuel e
  | .col c => some (c.tbl.name ++ "." ++ c.name)

/-- `_necessary_tables` of a column (`[self._table]`) or expression. -/
def SVal.tables : SVal → List Tbl
  | .expr e => e.necessaryTables
  | .col c => [c.tbl]

/-- `Select.columns` after `__init__`: `'*'`, a single Expression, or a
resolved list. -/
inductive Cols where
  | star : Cols
  | single : Expr → Cols
  | lst : List SVal → Cols

def colsTables : Cols → List Tbl
  | .star => []
  | .single e => e.necessaryTables
  | .lst l => (l.map SVal.tables).flatten

structure SelectStmt where
  table : Tbl
  whereE : Option Expr
  join : JoinList
  order_by : Option (List String)
  limit : Option Int
  offset : Option Int
  autojoin : Bool
  cols : Cols
  group_by : Option SVal
  having : Option Expr

/-- `BaseStatement._necessary_tables` (lines 104-122): scan the statement
attributes in `__dict__` insertion order — the base table, the WHERE
expression, the explicit-join dict values (dict keys are Tables, which
fail the `hasattr(..., '_necessary_tables')` probe and are skipped), the
selected columns, GROUP BY and HAVING — then `list(set(...))`, modelled as
first-occurrence dedup (set order is unspecified; only membership feeds
any claim). -/
def stmtNecessaryTables (s : SelectStmt) : List Tbl :=
  ([s.table]
    ++ (match s.whereE with | some w => w.necessaryTables | none => [])
    ++ (s.join.map (fun p => p.2.necessaryTables)).flatten
    ++ colsTables s.cols
    ++ (match s.group_by with | some g => g.tables | none => [])
    ++ (match s.having with | some h => h.necessaryTables | none => [])
  ).eraseDups

/-- The join map a statement renders: `implicit_join(...)` when `autojoin`
is set, else the explicit `self.join` (lines 86-93). -/
def resolvedJoins (fks : Tbl → List (Col × Col)) (hfuel : Nat)
    (s : SelectStmt) : Except JErr JoinList :=
  if s.autojoin then
    implicitJoinPure fks hfuel s.table (stmtNecessaryTables s) s.join
  else .ok s.join

/-- `f'JOIN {k} ON {v}'` for each entry of the resolved join dict. -/
def renderJoins (fuel : Nat) (joins : JoinList) :
    Except JErr (List String) :=
  joins.mapM (fun p =>
    match strExpr fuel p.2 with
    | some vs => Except.ok ("JOIN " ++ p.1.name ++ " ON " ++ vs)
    | none => Except.error JErr.fuelOut)

/-- `f'LIMIT {self.limit}' if self.limit else ''` — 0 is falsy. -/
def limitClause : Option Int → String
  | some n => if n = 0 then "" else "LIMIT " ++ toString n
  | none => ""

/-- `f'OFFSET {self.offset}' if self.offset else ''` — 0 is falsy. -/
def offsetClause : Option Int → String
  | some n => if n = 0 then "" else "OFFSET " ++ toString n
  | none => ""

/-- `f'ORDER BY {", ".join(self.order_by)}' if self.order_by else ''` —
an empty tuple is falsy. -/
def orderClause : Option (List String) → String
  | some l =>
      if l = [] then "" else "ORDER BY " ++ String.intercalate ", " l
  | none => ""

/-- `BaseStatement.clauses` (lines 84-102): build the FROM/JOIN/WHERE/
LIMIT/OFFSET/ORDER BY strings — an unset *or falsy* field yields `''` —
then `filter(bool, ...)` drops the empties. -/
def baseClauses (fks : Tbl → List (Col × Col)) (hfuel fuel : Nat)
    (s : SelectStmt) : Except JErr (List String) := do
  let joins ← resolvedJoins fks hfuel s
  let joinCls ← renderJoins fuel joins
  let whereCl ← match s.whereE with
    | some w =>
        match strExpr fuel w with
        | some ws => Except.ok ("WHERE " ++ ws)
        | none => Except.error JErr.fuelOut
    | none => Except.ok ""
  .ok ((["FROM " ++ s.table.name] ++ joinCls
        ++ [whereCl, limitClause s.limit, offsetClause s.offset,
            orderClause s.order_by]).filter (fun c => c ≠ ""))

/-- The `SELECT ...` clause (lines 313-317). -/
def selClause (fuel : Nat) : Cols → Except JErr String
  | .star => .ok "SELECT *"
  | .single e =>
      match strExpr fuel e with
      | some es => .ok ("SELECT " ++ es)
      | none => .error .fuelOut
  | .lst l => do
      let strs ← l.mapM (fun v =>
        match strSV fuel v with
        | some vs => Except.ok vs
        | none => Except.error JErr.fuelOut)
      .ok ("SELECT " ++ String.intercalate ", " strs)

/-- Lines 329-334: scan for the first clause starting with `'WHERE'` and
insert the GROUP BY clause right before it, else append it at the end. -/
def insertBeforeWhere (cls : List String) (gb : String) : List String :=
  match cls.findIdx? (fun c => pyStartsWith c "WHERE") with
  | some i => cls.insertIdx i gb
  | none => cls ++ [gb]

/-- `Select.clauses` (lines 312-339): prepend SELECT to the base clauses,
place GROUP BY (insert-before-WHERE, else append), then append HAVING
last. -/
def selectClauses (fks : Tbl → List (Col × Col)) (hfuel fuel : Nat)
    (s : SelectStmt) : Except JErr (List String) := do
  let sel ← selClause fuel s.cols
  let base ← baseClauses fks hfuel fuel s
  let cls := sel :: base
  let cls2 ← match s.group_by with
    | none => Except.ok cls
    | some g =>
        match strSV fuel g with
        | some gs => Except.ok (insertBeforeWhere cls ("GROUP BY " ++ gs))
        | none => Except.error JErr.fuelOut
  match s.having with
  | some h =>
      match strExpr fuel h with
      | some hs => .ok (cls2 ++ ["HAVING " ++ hs])
      | none => .error .fuelOut
  | none => .ok cls2

/-! ### Concrete instances used by counterexamples and witnesses -/

def tA : Tbl := ⟨1, "ta"⟩

def tB : Tbl := ⟨2, "tb"⟩

def tC : Tbl := ⟨3, "tc"⟩

def aToB : Col := ⟨tA, "b_id", "INTEGER"⟩

def bId : Col := ⟨tB, "id", "INTEGER"⟩

def bToC : Col := ⟨tB, "c_id", "INTEGER"⟩

def cId : Col := ⟨tC, "id", "INTEGER"⟩

/-- Foreign keys forming the chain `tA → tB → tC`. -/
def fksChain : Tbl → List (Col × Col) := fun t =>
  if t = tA then [(aToB, bId)]
  else if t = tB then [(bToC, cId)]
  else []

/-- Foreign keys for the C6 scenario: `tA` has none, `tB` has one pointing
at the unrelated table `tC`; there is no foreign-key path between `tA`
and `tB` in either direction. -/
def fksC6 : Tbl → List (Col × Col) := fun t =>
  if t = tB then [(bToC, cId)] else []

/-- `Expression(key, '<>', foreign_key)` — the shape `__invert__` builds
when inverting an equality of two columns (`'<>'` is whitelisted, so
nothing is parameterized). -/
def negCond (key fk : Col) : Expr :=
  .mk [.col key, .val (.s "<>"), .col fk]
      [.col key, .str "<>", .col fk]
      []
      [key.tbl, fk.tbl].eraseDups
      none none

/-- A sample boolean expression: `ta.b_id = tb.id`. -/
def sampleA : Expr := joinCond aToB bId

/-- A sample boolean expression: `tb.c_id = tc.id`. -/
def sampleB : Expr := joinCond bToC cId

/-! ### Derived views of the `__init__` loop (used to state C1) -/

/-- Counter evolution of one iteration of the `__init__` loop: only a
non-literal scalar advances the global counter. -/
def ctrStep (c : Nat) : Arg → Nat
  | .val v => if v.isLiteral then c else (next_placeholder c).2
  | _ => c

/-- Counter value after the loop processes `args`, starting from `c`. -/
def ctrAfterArgs : List Arg → Nat → Nat
  | [], c => c
  | a :: rest, c => ctrAfterArgs rest (ctrStep c a)

/-- The placeholder keys (colon stripped) inserted into
`self.placeholders` while the loop processes `args` from counter `c`:
one fresh key per non-literal scalar, plus every key of each nested
Expression argument's own mapping (absorbed by `dict.update`). -/
def insertedKeys : List Arg → Nat → List String
  | [], _ => []
  | .val v :: rest, c =>
      if v.isLiteral then insertedKeys rest c
      else Nat.repr (next_placeholder c).2 ::
             insertedKeys rest (next_placeholder c).2
  | .expr e :: rest, c => dkeys e.placeholders ++ insertedKeys rest c
  | _ :: rest, c => insertedKeys rest c

/-- The nested sub-expression of the C1 counterexample:
`Expression('world')` built at process start (counter 0), binding
placeholder key `'1'` — exactly `initExpr [.val (.s "world")] none none 0`
(checked by `c1Nested_built` below). -/
def c1Nested : Expr :=
  .mk [.val (.s "world")] [.str ":1"] [("1", .s "world")] [] none none

/-! ### Store predicates (used to state C9) -/

/-- Every dict object existing before a call still holds exactly its old
contents, and the heap only grew. -/
def storePreserves (σ σ2 : Store) : Prop :=
  σ.length ≤ σ2.length ∧ ∀ j, j < σ.length → getCell σ2 j = getCell σ j

/-- The C9 property over an `implicit_join` outcome: however the call
completes, no pre-existing dict (in particular the caller's `prior_joins`)
is mutated; on success the result is a distinct fresh object whose
contents start with every prior entry, in order. -/
def frameOK (σ : Store) (prior : Ref) : JoinOut → Prop
  | .ok σ2 r2 =>
      storePreserves σ σ2 ∧ getCell σ prior <+: getCell σ2 r2 ∧
        r2 ≠ prior
  | .unresolvable σ2 _ => storePreserves σ σ2
  | .fuelOut => True

/-! ### Claim-shaped clause sequence (used to state C4) -/

/-- Render an optional WHERE/HAVING expression: `some none` = field unset,
`some (some ws)` = rendered text, `none` = out of fuel. -/
def renderOptE (fuel : Nat) : Option Expr → Option (Option String)
  | none => some none
  | some e => (strExpr fuel e).map some

/-- Render an optional GROUP BY column/expression. -/
def renderOptSV (fuel : Nat) : Option SVal → Option (Option String)
  | none => some none
  | some v => (strSV fuel v).map some

/-- The (zero- or one-element) clause list a rendered WHERE text
contributes after the empty-string filter. -/
def wList : Option String → List String
  | some ws => ["WHERE " ++ ws]
  | none => []

/-- The clause list the `limit` field contributes: nothing when unset *or
zero* (Python truthiness), `LIMIT n` otherwise. -/
def limList : Option Int → List String
  | some n => if n = 0 then [] else ["LIMIT " ++ toString n]
  | none => []

/-- The clause list the `offset` field contributes (0 is falsy). -/
def offList : Option Int → List String
  | some n => if n = 0 then [] else ["OFFSET " ++ toString n]
  | none => []

/-- The clause list the `order_by` field contributes (an empty tuple is
falsy). -/
def ordList : Option (List String) → List String
  | some l =>
      if l = [] then [] else ["ORDER BY " ++ String.intercalate ", " l]
  | none => []

/-- The clause sequence as the claim describes it (with the falsy-value
omissions the code actually performs): SELECT, FROM, one JOIN per resolved
join in order, GROUP BY immediately before WHERE when both are present,
LIMIT (omitted when unset or 0), OFFSET (likewise), ORDER BY (omitted when
unset or empty), GROUP BY after ORDER BY when WHERE is absent, HAVING
last. -/
def clausesSpec (sel tname : String) (jcls : List String)
    (wOpt gbOpt hvOpt : Option String) (lim off : Option Int)
    (ord : Option (List String)) : List String :=
  [sel, "FROM " ++ tname] ++ jcls
  ++ (match wOpt, gbOpt with
      | some ws, some gs => ["GROUP BY " ++ gs, "WHERE " ++ ws]
      | some ws, none => ["WHERE " ++ ws]
      | none, _ => [])
  ++ limList lim ++ offList off ++ ordList ord
  ++ (match wOpt, gbOpt with
      | none, some gs => ["GROUP BY " ++ gs]
      | _, _ => [])
  ++ (match hvOpt with
      | some hs => ["HAVING " ++ hs]
      | none => [])

/-- The concrete Select of the C4 counterexample: a statement whose
`limit` field is set — to 0 — with everything else minimal. -/
def c4Stmt : SelectStmt :=
  { table := tA, whereE := none, join := [], order_by := none,
    limit := some 0, offset := none, autojoin := false,
    cols := .star, group_by := none, having := none }

/-- A Select exercising every clause at once (used as the C4 witness
input): explicit join on `tb`, WHERE, GROUP BY, non-zero LIMIT and
OFFSET, ORDER BY, HAVING. -/
def w4Stmt : SelectStmt :=
  { table := tA, whereE := some sampleA, join := [(tB, sampleB)],
    order_by := some ["ta.b_id"], limit := some 5, offset := some 2,
    autojoin := false, cols := .star, group_by := some (.col aToB),
    having := some sampleB }

/-! ## Theorems -/

theorem initExpr_and (A B : Expr) (cur : Nat) :
    initExpr [.expr A, .val (.s "AND"), .expr B] none none cur =
      .ok (pyAnd A B, cur) := rfl

theorem initExpr_or (A B : Expr) (cur : Nat) :
    initExpr [.val (.s "("), .expr A, .val (.s ")"), .val (.s "OR"),
              .val (.s "("), .expr B, .val (.s ")")] none none cur =
      .ok (pyOr A B, cur) := rfl

theorem initExpr_joinCond (key fk : Col) (cur : Nat) :
    initExpr [.col key, .val (.s "="), .col fk] none none cur =
      .ok (joinCond key fk, cur) := rfl

/-! ### General lemmas about the placeholder counter -/

theorem callName_def (k : Nat) :
    callName k = (next_placeholder (counterAfter k)).1 := rfl

theorem next_placeholder_fst (c : Nat) :
    (next_placeholder c).1 = ":" ++ Nat.repr (next_placeholder c).2 := by
  unfold next_placeholder
  split <;> rfl

theorem counterAfter_of_le : ∀ k, k ≤ 10000000 → counterAfter k = k := by
  intro k
  induction k with
  | zero => intro _; rfl
  | succ j ih =>
      intro h
      have hj : counterAfter j = j := ih (by omega)
      show (next_placeholder (counterAfter j)).2 = j + 1
      rw [hj]
      unfold next_placeholder MAX_PLACEHOLDER
      rw [if_neg (by omega)]

theorem counterAfter_succ_mod :
    ∀ k, counterAfter (k + 1) = k % 10000000 + 1 := by
  intro k
  induction k with
  | zero => rfl
  | succ j ih =>
      show (next_placeholder (counterAfter (j + 1))).2 = _
      rw [ih]
      unfold next_placeholder MAX_PLACEHOLDER
      have hlt : j % 10000000 < 10000000 := by omega
      by_cases h : j % 10000000 + 1 > 9999999
      · rw [if_pos h]
        have h0 : (j + 1) % 10000000 = 0 := by omega
        simp [h0]
      · rw [if_neg h]
        have h1 : (j + 1) % 10000000 = j % 10000000 + 1 := by omega
        simp [h1]

/-- C5 — counterexample.  The claim says every placeholder name ever
returned is `:<n>` with `1 ≤ n ≤ 9,999,999`.  But the wrap test in
`next_placeholder` runs *before* the increment, so the 10,000,000-th call
made by the process (placeholder index 9,999,999 counting from zero)
returns `:10000000`, whose integer exceeds the claimed ceiling. -/
theorem C5_counterexample :
    callName 9999999 = ":" ++ Nat.repr 10000000 ∧
      ¬ (10000000 ≤ 9999999) := by
  constructor
  · rw [callName_def, counterAfter_of_le 9999999 (by omega)]
    unfold next_placeholder MAX_PLACEHOLDER
    rw [if_neg (by omega)]
  · omega

/-- C5 — amended claim: successive calls return `:1`, `:2`, ...,
strictly increasing up to `:10000000` (one past the `MAX_PLACEHOLDER`
ceiling, reached because the wrap test precedes the increment) and then
wrapping back to `:1`; every name returned is `:<n>` with
`1 ≤ n ≤ 10,000,000`, and the `(k+1)`-th call returns exactly
`:<k % 10,000,000 + 1>`. -/
theorem C5_amended :
    ∀ k, callName k = ":" ++ Nat.repr (k % 10000000 + 1) ∧
      1 ≤ k % 10000000 + 1 ∧ k % 10000000 + 1 ≤ 10000000 := by
  intro k
  refine ⟨?_, by omega, by omega⟩
  cases k with
  | zero => rfl
  | succ j =>
      show (next_placeholder (counterAfter (j + 1))).1 = _
      rw [counterAfter_succ_mod]
      unfold next_placeholder MAX_PLACEHOLDER
      by_cases h : j % 10000000 + 1 > 9999999
      · rw [if_pos h]
        have h0 : (j + 1) % 10000000 = 0 := by omega
        rw [h0]
      · rw [if_neg h]
        have h1 : (j + 1) % 10000000 = j % 10000000 + 1 := by omega
        rw [h1]

/-- C10: `rstrip()` with no character builds the same `LTRIM(...)`
expression that `lstrip()` builds, and `rstrip(c)` with a truthy character
produces an expression whose function name is the lowercase `'rtrim'`,
not `'RTRIM'`. -/
theorem C10_rstrip :
    ∀ (e : Expr) (c : String) (cur : Nat),
      rstripMethod e none cur = lstripMethod e none cur ∧
      rstripMethod e none cur = initExpr [.expr e] (some "LTRIM") none cur ∧
      (c ≠ "" →
        (rstripMethod e (some c) cur).map (fun p => p.1.func) =
          .ok (some "rtrim")) ∧
      "rtrim" ≠ "RTRIM" := by
  intro e c cur
  refine ⟨rfl, rfl, ?_, by decide⟩
  intro hc
  simp only [rstripMethod]
  rw [if_neg hc]
  by_cases hl : (Val.s c).isLiteral <;>
    simp [initExpr, initLoop, initStep, hl, Expr.func, Except.map]

theorem sintercalate_single (j s : String) :
    String.intercalate j [s] = s := rfl

/-- C8: `Expression.min(distinct=True)` drops the DISTINCT prefix — it
renders `MIN(<e>)` — while `functions.min` and `Expression.max` with the
same flag render `MIN(DISTINCT <e>)` / `MAX(DISTINCT <e>)`; the two
rendered forms differ.  (`pyClean` is the `'( '`/`' )'` collapse `__str__`
applies to the joined token text.) -/
theorem C8_min_distinct :
    ∀ (fuel : Nat) (e : Expr) (s : String) (cur : Nat),
      strExpr fuel e = some s →
      (minMethod e true cur).map (fun p => strExpr (fuel + 1) p.1) =
        .ok (some ("MIN(" ++ pyClean s ++ ")")) ∧
      (fnMin [.expr e] true cur).map (fun p => strExpr (fuel + 1) p.1) =
        .ok (some ("MIN(DISTINCT " ++ pyClean s ++ ")")) ∧
      (maxMethod e true cur).map (fun p => strExpr (fuel + 1) p.1) =
        .ok (some ("MAX(DISTINCT " ++ pyClean s ++ ")")) ∧
      ("MIN(" ++ pyClean s ++ ")" ≠ "MIN(DISTINCT " ++ pyClean s ++ ")") := by
  intro fuel e s cur h
  refine ⟨?_, ?_, ?_, ?_⟩
  · simp [minMethod, initExpr, initLoop, initStep, Except.map, strExpr,
          strTokenWith, h, sintercalate_single, List.mapM.loop]
    try rfl
  · simp [fnMin, initExpr, initLoop, initStep, Except.map, strExpr,
          strTokenWith, h, sintercalate_single, List.mapM.loop]
    try rfl
  · simp [maxMethod, initExpr, initLoop, initStep, Except.map, strExpr,
          strTokenWith, h, sintercalate_single, List.mapM.loop]
    try rfl
  · intro hEq
    have hl := congrArg String.length hEq
    rw [String.length_append, String.length_append, String.length_append,
        String.length_append] at hl
    have e1 : "MIN(".length = 4 := rfl
    have e2 : "MIN(DISTINCT ".length = 13 := rfl
    rw [e1, e2] at hl
    omega

/-- C7: on an infix Expression (no function name, exactly three tokens,
string middle token) `type_` returns float for `/`, integer for `%`,
boolean for the comparison/boolean operators — but for `+`, `-`, `*` it
raises `NameError` (the source reads the unbound name `tokens`) instead of
doing the claimed operand-based float/integer inference. -/
theorem C7_infix_type :
    ∀ (fuel : Nat) (args : List Arg) (t0 t2 : Token) (op : String)
      (ph : List (String × Val)) (nt : List Tbl) (pfx : Option String),
      (op = "/" →
        typeOfE (fuel + 1) (.mk args [t0, .str op, t2] ph nt none pfx) =
          some (.ok .float)) ∧
      (op = "%" →
        typeOfE (fuel + 1) (.mk args [t0, .str op, t2] ph nt none pfx) =
          some (.ok .int)) ∧
      (op ∈ ["LIKE", "AND", "OR", "=", "==", ">", ">=", "<", "<=", "IN",
             "BETWEEN"] →
        typeOfE (fuel + 1) (.mk args [t0, .str op, t2] ph nt none pfx) =
          some (.ok .bool)) ∧
      (op ∈ ["*", "+", "-"] →
        typeOfE (fuel + 1) (.mk args [t0, .str op, t2] ph nt none pfx) =
          some (.error .nameError)) := by
  intro fuel args t0 t2 op ph nt pfx
  refine ⟨?_, ?_, ?_, ?_⟩
  · rintro rfl; rfl
  · rintro rfl; rfl
  · intro hmem
    simp only [List.mem_cons, List.not_mem_nil, or_false] at hmem
    rcases hmem with rfl | rfl | rfl | rfl | rfl | rfl | rfl | rfl | rfl |
      rfl | rfl <;> rfl
  · intro hmem
    simp only [List.mem_cons, List.not_mem_nil, or_false] at hmem
    rcases hmem with rfl | rfl | rfl <;> rfl

theorem exceptBind_ok {ε α β : Type} (a : α) (f : α → Except ε β) :
    (Except.ok a >>= f) = f a := rfl

/-- C3: inverting `A & B` (built by `__and__`) inverts both operands and
yields `(~A) | (~B)` (built by `__or__`), and inverting `A | B` yields
`(~A) & (~B)`; the placeholder counter threads left operand first. -/
theorem C3_demorgan :
    ∀ (fuel : Nat) (A B A2 B2 : Expr) (c c1 c2 : Nat),
      invert fuel A c = .ok (A2, c1) →
      invert fuel B c1 = .ok (B2, c2) →
      invert (fuel + 1) (pyAnd A B) c = .ok (pyOr A2 B2, c2) ∧
      invert (fuel + 1) (pyOr A B) c = .ok (pyAnd A2 B2, c2) := by
  intro fuel A B A2 B2 c c1 c2 h1 h2
  constructor
  · simp [invert, pyAnd, pyOr, operatorOf, operMatch, findOpposite,
          findOppositeGo, invertArgWith, h1, h2, exceptBind_ok]
  · simp [invert, pyAnd, pyOr, operatorOf, operMatch, findOpposite,
          findOppositeGo, invertArgWith, h1, h2, exceptBind_ok]

/-- C3 — witness: concrete run on `(ta.b_id = tb.id) & (tb.c_id = tc.id)`
and its `|` counterpart. -/
theorem C3_demorgan_witness :
    invert 1 sampleA 0 = .ok (negCond aToB bId, 0) ∧
    invert 1 sampleB 0 = .ok (negCond bToC cId, 0) ∧
    invert 2 (pyAnd sampleA sampleB) 0 =
      .ok (pyOr (negCond aToB bId) (negCond bToC cId), 0) ∧
    invert 2 (pyOr sampleA sampleB) 0 =
      .ok (pyAnd (negCond aToB bId) (negCond bToC cId), 0) := by
  have h1 : invert 1 sampleA 0 = .ok (negCond aToB bId, 0) := rfl
  have h2 : invert 1 sampleB 0 = .ok (negCond bToC cId, 0) := rfl
  have h := C3_demorgan 1 sampleA sampleB (negCond aToB bId)
    (negCond bToC cId) 0 0 0 h1 h2
  exact ⟨h1, h2, h.1, h.2⟩

/-- C6: the claim says a target reachable from no available table by
forward or reverse foreign-key traversal makes resolution fail, naming the
table.  The code instead accepts any target owning at least one foreign
key: with `tA` keyless and `tB`'s only foreign key pointing at the
unrelated `tC`, `implicit_join(tA, [tB], {})` has no path to `tB`, yet it
returns a join on `tB` whose ON condition references `tC` — a table that
is neither the base table nor joined — instead of raising. -/
theorem C6_reverse_join_bug :
    implicitJoinPure fksC6 5 tA [tB] [] = .ok [(tB, joinCond bToC cId)] ∧
    (joinCond bToC cId).necessaryTables = [tB, tC] ∧
    fksC6 tA = [] ∧ fksC6 tB = [(bToC, cId)] ∧
    cId.tbl = tC ∧ tC ≠ tA ∧ tC ≠ tB := by
  exact ⟨rfl, by decide, by decide, by decide, by decide, by decide,
         by decide⟩

/-- C2: with foreign keys chaining `T1 → T2 → T3`, a statement on `T1`
needing `T3` resolves, with no explicit joins, to exactly
`{T2: T1.fk = T2.ref, T3: T2.fk = T3.ref}` in that order. -/
theorem C2_join_chain :
    ∀ (k : Nat) (fks : Tbl → List (Col × Col)) (T1 T2 T3 : Tbl)
      (c1 r2 c2 r3 : Col),
      fks T1 = [(c1, r2)] → fks T2 = [(c2, r3)] →
      c1.tbl = T1 → r2.tbl = T2 → c2.tbl = T2 → r3.tbl = T3 →
      T2 ≠ T1 → T3 ≠ T1 → T3 ≠ T2 →
      implicitJoinPure fks (k + 2) T1 [T3] [] =
        .ok [(T2, joinCond c1 r2), (T3, joinCond c2 r3)] := by
  intro k fks T1 T2 T3 c1 r2 c2 r3 hf1 hf2 hc1 hr2 hc2 hr3 h21 h31 h32
  have h23 : T2 ≠ T3 := Ne.symm h32
  have h13 : T1 ≠ T3 := Ne.symm h31
  simp [implicitJoinPure, implicit_join, allocCell, getCell, setCell,
        joinLoop, availScan, implicitJoinHelper, helperGo, helperNew,
        dmem, dkeys, dinsert, hf1, hf2, hr2, hr3, h21, h31, h32, h23, h13]

/-- C2 — witness: the concrete chain `ta → tb → tc`. -/
theorem C2_join_chain_witness :
    implicitJoinPure fksChain 5 tA [tC] [] =
      .ok [(tB, joinCond aToB bId), (tC, joinCond bToC cId)] :=
  C2_join_chain 3 fksChain tA tB tC aToB bId bToC cId
    (by decide) (by decide) (by decide) (by decide) (by decide)
    (by decide) (by decide) (by decide) (by decide)

/-- C7 — witness: a `+` expression hits the NameError branch, a `/`
expression infers float. -/
theorem C7_infix_type_witness :
    typeOfE 1 (.mk [] [.str "x", .str "+", .str "y"] [] [] none none) =
      some (.error .nameError) ∧
    typeOfE 1 (.mk [] [.str "x", .str "/", .str "y"] [] [] none none) =
      some (.ok .float) :=
  ⟨(C7_infix_type 0 [] (.str "x") (.str "y") "+" [] [] none).2.2.2
      (by decide),
   (C7_infix_type 0 [] (.str "x") (.str "y") "/" [] [] none).1 rfl⟩

/-- C8 — witness: rendering `ta.b_id = tb.id` through the three
wrappers. -/
theorem C8_min_distinct_witness :
    strExpr 1 (joinCond aToB bId) = some "ta.b_id = tb.id" ∧
    (minMethod (joinCond aToB bId) true 0).map (fun p => strExpr 2 p.1) =
      .ok (some "MIN(ta.b_id = tb.id)") ∧
    (fnMin [.expr (joinCond aToB bId)] true 0).map
        (fun p => strExpr 2 p.1) =
      .ok (some "MIN(DISTINCT ta.b_id = tb.id)") := by
  have h : strExpr 1 (joinCond aToB bId) = some "ta.b_id = tb.id" := rfl
  have hc := C8_min_distinct 1 (joinCond aToB bId) "ta.b_id = tb.id" 0 h
  exact ⟨h, hc.1.trans (by rfl), hc.2.1.trans (by rfl)⟩

/-- C10 — witness. -/
theorem C10_rstrip_witness :
    (rstripMethod sampleA (some "x") 0).map (fun p => p.1.func) =
      .ok (some "rtrim") ∧
    rstripMethod sampleA none 0 = lstripMethod sampleA none 0 :=
  ⟨(C10_rstrip sampleA "x" 0).2.2.1 (by decide),
   (C10_rstrip sampleA "x" 0).1⟩

/-! ### Dict lemmas -/

theorem dget_cons {α β : Type} [DecidableEq α] (a : α) (b : β)
    (d : List (α × β)) (k : α) :
    dget ((a, b) :: d) k = if a = k then some b else dget d k := by
  by_cases h : a = k <;> simp [dget, List.find?, h]

theorem dget_mapfix_ne {α β : Type} [DecidableEq α] (d : List (α × β))
    (k k2 : α) (v : β) (hne : k ≠ k2) :
    dget (d.map (fun p => if p.1 = k then (k, v) else p)) k2 =
      dget d k2 := by
  induction d with
  | nil => rfl
  | cons p d ih =>
      obtain ⟨a, b⟩ := p
      by_cases ha : a = k
      · subst ha
        simp [dget_cons, hne, ih]
      · simp [dget_cons, ha, ih]

theorem dget_mapfix_self {α β : Type} [DecidableEq α] (d : List (α × β))
    (k : α) (v : β) (hm : dmem d k = true) :
    dget (d.map (fun p => if p.1 = k then (k, v) else p)) k = some v := by
  induction d with
  | nil => simp [dmem] at hm
  | cons p d ih =>
      obtain ⟨a, b⟩ := p
      by_cases ha : a = k
      · subst ha
        simp [dget_cons]
      · have hm2 : dmem d k = true := by
          simp only [dmem, List.map_cons, List.contains_cons,
            Bool.or_eq_true, beq_iff_eq] at hm
          rcases hm with h | h
          · exact absurd h.symm ha
          · exact h
        simp [dget_cons, ha, ih hm2]

theorem dget_append_one_ne {α β : Type} [DecidableEq α]
    (d : List (α × β)) (k k2 : α) (v : β) (hne : k ≠ k2) :
    dget (d ++ [(k, v)]) k2 = dget d k2 := by
  induction d with
  | nil => simp [dget_cons, hne, dget]
  | cons p d ih =>
      obtain ⟨a, b⟩ := p
      rw [List.cons_append, dget_cons, dget_cons, ih]

theorem dget_append_one_self {α β : Type} [DecidableEq α]
    (d : List (α × β)) (k : α) (v : β) (hm : dmem d k = false) :
    dget (d ++ [(k, v)]) k = some v := by
  induction d with
  | nil => simp [dget_cons]
  | cons p d ih =>
      obtain ⟨a, b⟩ := p
      simp only [dmem, List.map_cons, List.contains_cons,
        Bool.or_eq_false_iff, beq_eq_false_iff_ne] at hm
      rw [List.cons_append, dget_cons, if_neg (fun h => hm.1 h.symm)]
      exact ih hm.2

theorem dget_dinsert_ne {α β : Type} [DecidableEq α] (d : List (α × β))
    (k k2 : α) (v : β) (h : k ≠ k2) :
    dget (dinsert d k v) k2 = dget d k2 := by
  unfold dinsert
  by_cases hm : dmem d k
  · rw [if_pos hm]
    exact dget_mapfix_ne d k k2 v h
  · rw [if_neg hm]
    exact dget_append_one_ne d k k2 v h

theorem dget_dinsert_self {α β : Type} [DecidableEq α] (d : List (α × β))
    (k : α) (v : β) :
    dget (dinsert d k v) k = some v := by
  unfold dinsert
  by_cases hm : dmem d k
  · rw [if_pos hm]
    exact dget_mapfix_self d k v hm
  · rw [if_neg hm]
    exact dget_append_one_self d k v (Bool.of_not_eq_true hm)

theorem dget_dupdate_notmem {α β : Type} [DecidableEq α]
    (d d2 : List (α × β)) (k : α) (h : k ∉ dkeys d2) :
    dget (dupdate d d2) k = dget d k := by
  induction d2 generalizing d with
  | nil => rfl
  | cons p d2 ih =>
      obtain ⟨a, b⟩ := p
      simp only [dkeys, List.map_cons, List.mem_cons] at h
      push_neg at h
      show dget (dupdate (dinsert d a b) d2) k = _
      rw [ih (dinsert d a b) h.2]
      exact dget_dinsert_ne d a k b (fun hak => h.1 hak.symm)

/-! ### Structure of the `__init__` loop -/

/-- Every successful iteration appends exactly one token and advances the
counter by `ctrStep`. -/
theorem initStep_ok (st : InitSt) (a : Arg) (st2 : InitSt)
    (h : initStep st a = .ok st2) :
    (∃ tok, st2.tk = st.tk ++ [tok]) ∧ st2.cur = ctrStep st.cur a := by
  cases a with
  | expr e => cases h; exact ⟨⟨_, rfl⟩, rfl⟩
  | col c => cases h; exact ⟨⟨_, rfl⟩, rfl⟩
  | table t => cases h; exact ⟨⟨_, rfl⟩, rfl⟩
  | null => cases h; exact ⟨⟨_, rfl⟩, rfl⟩
  | other => cases h
  | val v =>
      by_cases hl : v.isLiteral
      · cases v with
        | s str =>
            simp only [initStep, hl, if_true] at h
            cases h
            exact ⟨⟨_, rfl⟩, by simp [ctrStep, hl]⟩
        | i n => simp [Val.isLiteral] at hl
        | f q => simp [Val.isLiteral] at hl
      · simp only [initStep, hl, Bool.false_eq_true, if_false] at h
        cases h
        exact ⟨⟨_, rfl⟩, by simp [ctrStep, hl]⟩

theorem initLoop_tokens_extend :
    ∀ (args : List Arg) (st st2 : InitSt),
      initLoop args st = .ok st2 → ∃ t, st2.tk = st.tk ++ t := by
  intro args
  induction args with
  | nil =>
      intro st st2 h
      cases h
      exact ⟨[], (List.append_nil _).symm⟩
  | cons a rest ih =>
      intro st st2 h
      simp only [initLoop] at h
      cases hstep : initStep st a with
      | error e => rw [hstep] at h; cases h
      | ok st1 =>
          rw [hstep] at h
          obtain ⟨⟨tok, htok⟩, _⟩ := initStep_ok st a st1 hstep
          obtain ⟨t, ht⟩ := ih st1 st2 h
          exact ⟨tok :: t, by rw [ht, htok]; simp⟩

/-- Keys not inserted by the remaining iterations keep their binding. -/
theorem initLoop_ph_frame :
    ∀ (args : List Arg) (st st2 : InitSt) (k : String),
      initLoop args st = .ok st2 →
      k ∉ insertedKeys args st.cur →
      dget st2.ph k = dget st.ph k := by
  intro args
  induction args with
  | nil =>
      intro st st2 k h _
      cases h
      rfl
  | cons a rest ih =>
      intro st st2 k h hk
      simp only [initLoop] at h
      cases a with
      | expr e =>
          simp only [initStep] at h
          simp only [insertedKeys, List.mem_append] at hk
          push_neg at hk
          rw [ih ⟨dupdate st.ph e.placeholders, st.nt ++ e.necessaryTables,
                st.tk ++ [.expr e], st.cur⟩ st2 k h hk.2]
          exact dget_dupdate_notmem _ _ _ hk.1
      | col c =>
          simp only [initStep] at h
          exact ih ⟨st.ph, st.nt ++ [c.tbl], st.tk ++ [.col c], st.cur⟩
            st2 k h hk
      | table t =>
          simp only [initStep] at h
          exact ih ⟨st.ph, st.nt ++ [t], st.tk ++ [.table t], st.cur⟩
            st2 k h hk
      | null =>
          simp only [initStep] at h
          exact ih ⟨st.ph, st.nt, st.tk ++ [.str "NULL"], st.cur⟩
            st2 k h hk
      | other => simp only [initStep] at h; cases h
      | val v =>
          by_cases hl : v.isLiteral
          · cases v with
            | s str =>
                simp only [initStep, hl, if_true] at h
                simp only [insertedKeys, hl, if_true] at hk
                exact ih ⟨st.ph, st.nt, st.tk ++ [.str str], st.cur⟩
                  st2 k h hk
            | i n => simp [Val.isLiteral] at hl
            | f q => simp [Val.isLiteral] at hl
          · simp only [initStep, hl, Bool.false_eq_true, if_false] at h
            simp only [insertedKeys, hl, Bool.false_eq_true, if_false,
              List.mem_cons] at hk
            push_neg at hk
            rw [ih ⟨dinsert st.ph (Nat.repr (next_placeholder st.cur).2) v,
                  st.nt, st.tk ++ [.str (next_placeholder st.cur).1],
                  (next_placeholder st.cur).2⟩ st2 k h hk.2]
            exact dget_dinsert_ne _ _ _ _ (fun he => hk.1 he.symm)

/-- The placeholder fact at one position of the loop: the token is the
freshly allocated `:<n>`, and when nothing later re-inserts that key, the
final mapping binds it to the value. -/
theorem initLoop_val_placeholder :
    ∀ (args : List Arg) (st : InitSt) (i : Nat) (v : Val) (st2 : InitSt),
      args[i]? = some (.val v) →
      v.isLiteral = false →
      initLoop args st = .ok st2 →
      st2.tk[st.tk.length + i]? =
        some (.str (":" ++
          Nat.repr (ctrAfterArgs (args.take (i + 1)) st.cur))) ∧
      (Nat.repr (ctrAfterArgs (args.take (i + 1)) st.cur) ∉
          insertedKeys (args.drop (i + 1))
            (ctrAfterArgs (args.take (i + 1)) st.cur) →
        dget st2.ph
          (Nat.repr (ctrAfterArgs (args.take (i + 1)) st.cur)) = some v) := by
  intro args
  induction args with
  | nil => intro st i v st2 h; cases h
  | cons a rest ih =>
      intro st i v st2 hget hlit hloop
      simp only [initLoop] at hloop
      cases i with
      | zero =>
          simp only [List.getElem?_cons_zero, Option.some_inj] at hget
          subst hget
          simp only [initStep, hlit, Bool.false_eq_true, if_false]
            at hloop
          have hctr : ctrAfterArgs ((Arg.val v :: rest).take (0 + 1))
              st.cur = (next_placeholder st.cur).2 := by
            simp [ctrAfterArgs, ctrStep, hlit]
          rw [hctr]
          constructor
          · obtain ⟨t, ht⟩ := initLoop_tokens_extend rest _ _ hloop
            rw [ht]
            show (st.tk ++ [Token.str (next_placeholder st.cur).1] ++
              t)[st.tk.length + 0]? = _
            rw [← next_placeholder_fst, List.append_assoc,
              List.getElem?_append_right (by omega)]
            simp
          · intro hfresh
            show dget st2.ph _ = _
            rw [initLoop_ph_frame rest
              ⟨dinsert st.ph (Nat.repr (next_placeholder st.cur).2) v,
                st.nt, st.tk ++ [.str (next_placeholder st.cur).1],
                (next_placeholder st.cur).2⟩ st2 _ hloop hfresh]
            exact dget_dinsert_self _ _ _
      | succ j =>
          simp only [List.getElem?_cons_succ] at hget
          cases hstep : initStep st a with
          | error e => rw [hstep] at hloop; cases hloop
          | ok st1 =>
              rw [hstep] at hloop
              obtain ⟨⟨tok, htok⟩, hcur⟩ := initStep_ok st a st1 hstep
              have hih := ih st1 j v st2 hget hlit hloop
              have htake : ctrAfterArgs ((a :: rest).take (j + 1 + 1))
                  st.cur = ctrAfterArgs (rest.take (j + 1)) st1.cur := by
                show ctrAfterArgs (rest.take (j + 1)) (ctrStep st.cur a) = _
                rw [hcur]
              have hdrop : (a :: rest).drop (j + 1 + 1) =
                  rest.drop (j + 1) := rfl
              have hlen : st.tk.length + (j + 1) = st1.tk.length + j := by
                rw [htok]
                simp
                omega
              rw [htake, hdrop, hlen]
              exact hih

/-- C1 — amended claim: for a scalar `v` (int/float/str outside the
literal whitelist) at position `i`, construction puts the placeholder
token `:<n>` at position `i` of the token stream unconditionally, where
`n` is the counter value allocated for that position; and the expression's
placeholder mapping binds that name to exactly `v` PROVIDED the name does
not collide with a key inserted later in the same construction (a later
scalar's key after counter wraparound, or a key carried by a later nested
Expression argument — possible once the process-wide counter wraps, see
the counterexample) — when it does collide, the later binding wins. -/
theorem C1_parameterize :
    ∀ (args : List Arg) (f p : Option String) (cur i : Nat) (v : Val)
      (e : Expr) (cur2 : Nat),
      args[i]? = some (.val v) →
      v.isLiteral = false →
      initExpr args f p cur = .ok (e, cur2) →
      e.tokens[i]? =
        some (.str (":" ++
          Nat.repr (ctrAfterArgs (args.take (i + 1)) cur))) ∧
      (Nat.repr (ctrAfterArgs (args.take (i + 1)) cur) ∉
          insertedKeys (args.drop (i + 1))
            (ctrAfterArgs (args.take (i + 1)) cur) →
        dget e.placeholders
          (Nat.repr (ctrAfterArgs (args.take (i + 1)) cur)) = some v) := by
  intro args f p cur i v e cur2 hget hlit hinit
  unfold initExpr at hinit
  cases hloop : initLoop args ⟨[], [], [], cur⟩ with
  | error err => rw [hloop] at hinit; cases hinit
  | ok st =>
      rw [hloop] at hinit
      cases hinit
      have h := initLoop_val_placeholder args ⟨[], [], [], cur⟩ i v st
        hget hlit hloop
      simpa using h

/-- C1 — witness for the amended claim: `Expression('hello')` at counter 0
binds `'1' ↦ 'hello'` and places token `:1`. -/
theorem C1_parameterize_witness :
    initExpr [.val (.s "hello")] none none 0 =
      .ok (.mk [.val (.s "hello")] [.str ":1"] [("1", .s "hello")] []
             none none, 1) ∧
    (Expr.mk [.val (.s "hello")] [.str ":1"] [("1", .s "hello")] []
        none none).tokens[0]? = some (.str ":1") ∧
    dget (Expr.mk [.val (.s "hello")] [.str ":1"] [("1", .s "hello")] []
        none none).placeholders "1" = some (.s "hello") := by
  have h := C1_parameterize [.val (.s "hello")] none none 0 0 (.s "hello")
    (.mk [.val (.s "hello")] [.str ":1"] [("1", .s "hello")] [] none none)
    1 rfl rfl rfl
  exact ⟨rfl, h.1, h.2 (by decide)⟩

/-- C1 — counterexample to the claim as stated.  The counter state
10,000,000 is reachable (it is the state after 10,000,000 calls); there,
`Expression('hello', sub)` — where `sub` is `Expression('world')` built at
process start and therefore carrying placeholder key `'1'` — allocates the
wrapped-around "fresh" name `:1` for `'hello'`, and the subsequent
`placeholders.update(sub.placeholders)` overwrites the binding: the
mapping sends `'1'` to `'world'`, not to `'hello'`, even though token
`:1` sits in `'hello'`'s position. -/
theorem C1_counterexample :
    counterAfter 10000000 = 10000000 ∧
    initExpr [.val (.s "world")] none none 0 = .ok (c1Nested, 1) ∧
    (initExpr [.val (.s "hello"), .expr c1Nested] none none 10000000).map
        (fun pr => (pr.1.tokens[0]?, dget pr.1.placeholders "1")) =
      .ok (some (.str ":1"), some (.s "world")) ∧
    Val.s "world" ≠ Val.s "hello" ∧
    (Val.s "hello").isLiteral = false :=
  ⟨counterAfter_of_le 10000000 (Nat.le_refl _), rfl, rfl, by decide, rfl⟩

/-! ### Store lemmas for C9 -/

theorem getCell_append_lt (σ : Store) (d : JoinList) :
    ∀ j, j < σ.length → getCell (σ ++ [d]) j = getCell σ j := by
  induction σ with
  | nil => intro j h; simp at h
  | cons c σ ih =>
      intro j h
      cases j with
      | zero => rfl
      | succ j => exact ih j (by simpa using h)

theorem getCell_append_self (σ : Store) (d : JoinList) :
    getCell (σ ++ [d]) σ.length = d := by
  induction σ with
  | nil => rfl
  | cons c σ ih => exact ih

theorem set_append_len (σ : Store) (d d2 : JoinList) :
    (σ ++ [d]).set σ.length d2 = σ ++ [d2] := by
  induction σ with
  | nil => rfl
  | cons c σ ih => simp [List.set, ih]

theorem storePreserves_refl (σ : Store) : storePreserves σ σ :=
  ⟨Nat.le_refl _, fun _ _ => rfl⟩

theorem storePreserves_trans {σ1 σ2 σ3 : Store}
    (h1 : storePreserves σ1 σ2) (h2 : storePreserves σ2 σ3) :
    storePreserves σ1 σ3 :=
  ⟨Nat.le_trans h1.1 h2.1,
   fun j hj => (h2.2 j (Nat.lt_of_lt_of_le hj h1.1)).trans (h1.2 j hj)⟩

theorem storePreserves_append (σ : Store) (d : JoinList) :
    storePreserves σ (σ ++ [d]) :=
  ⟨by simp, fun j hj => getCell_append_lt σ d j hj⟩

/-- `dinsert` with an absent key appends the binding. -/
theorem dinsert_not_mem {α β : Type} [DecidableEq α] (d : List (α × β))
    (k : α) (v : β) (h : dmem d k = false) :
    dinsert d k v = d ++ [(k, v)] := by
  unfold dinsert
  rw [h]
  rfl

theorem helperNew_frame (σ : Store) (prior : Ref) (far : Tbl)
    (cond : Expr) (hp : prior < σ.length) :
    storePreserves σ (helperNew σ prior far cond).1 ∧
    (helperNew σ prior far cond).2 < (helperNew σ prior far cond).1.length ∧
    ((helperNew σ prior far cond).2 = prior ∨
      σ.length ≤ (helperNew σ prior far cond).2) ∧
    getCell σ prior <+:
      getCell (helperNew σ prior far cond).1
        (helperNew σ prior far cond).2 := by
  unfold helperNew
  by_cases hm : dmem (getCell σ prior) far
  · rw [if_pos hm]
    exact ⟨storePreserves_refl σ, hp, Or.inl rfl, List.prefix_refl _⟩
  · rw [if_neg hm]
    simp only [allocCell, setCell]
    rw [set_append_len, dinsert_not_mem _ _ _ (Bool.of_not_eq_true hm)]
    refine ⟨storePreserves_append σ _, by simp, Or.inr (Nat.le_refl _), ?_⟩
    rw [getCell_append_self]
    exact List.prefix_append _ _

/-- The facts `helperGo` guarantees: the heap only grows, pre-existing
cells keep their contents, the result ref is the prior ref or a fresh one,
and the prior contents are a prefix of the result contents. -/
theorem helperGo_frame (fks : Tbl → List (Col × Col))
    (rec : Store → Tbl → Ref → Option (Store × Ref)) (target : Tbl)
    (rev : Bool)
    (hrec : ∀ σ st pr σ2 r2, pr < σ.length →
      rec σ st pr = some (σ2, r2) →
      storePreserves σ σ2 ∧ r2 < σ2.length ∧
        (r2 = pr ∨ σ.length ≤ r2) ∧
        getCell σ pr <+: getCell σ2 r2) :
    ∀ (edges : List (Col × Col)) (σ : Store) (prior : Ref) (σ2 : Store)
      (r2 : Ref), prior < σ.length →
      helperGo fks rec target rev σ prior edges = some (σ2, r2) →
      storePreserves σ σ2 ∧ r2 < σ2.length ∧
        (r2 = prior ∨ σ.length ≤ r2) ∧
        getCell σ prior <+: getCell σ2 r2 := by
  intro edges
  induction edges with
  | nil =>
      intro σ prior σ2 r2 hp h
      cases h
      exact ⟨storePreserves_refl σ, hp, Or.inl rfl, List.prefix_refl _⟩
  | cons edge rest ih =>
      intro σ prior σ2 r2 hp h
      obtain ⟨key, fk⟩ := edge
      simp only [helperGo] at h
      have hfacts := helperNew_frame σ prior
        (if rev then key.tbl else fk.tbl) (joinCond key fk) hp
      rcases hNew : helperNew σ prior (if rev then key.tbl else fk.tbl)
          (joinCond key fk) with ⟨σ1, r1⟩
      rw [hNew] at h hfacts
      dsimp only at h hfacts
      obtain ⟨hpres1, hlt1, hor1, hpre1⟩ := hfacts
      by_cases hft : (if rev then key.tbl else fk.tbl) = target
      · rw [if_pos hft] at h
        cases h
        exact ⟨hpres1, hlt1, hor1, hpre1⟩
      · rw [if_neg hft] at h
        cases hr : rec σ1 fk.tbl r1 with
        | none => rw [hr] at h; cases h
        | some pr3 =>
            obtain ⟨σ3, recRef⟩ := pr3
            rw [hr] at h
            dsimp only at h
            obtain ⟨hpres2, hlt2, hor2, hpre2⟩ :=
              hrec σ1 fk.tbl r1 σ3 recRef hlt1 hr
            by_cases hdm : dmem (getCell σ3 recRef) target
            · rw [if_pos hdm] at h
              cases h
              refine ⟨storePreserves_trans hpres1 hpres2, hlt2, ?_,
                hpre1.trans hpre2⟩
              rcases hor2 with h2 | h2
              · rw [h2]; exact hor1
              · exact Or.inr (Nat.le_trans hpres1.1 h2)
            · rw [if_neg hdm] at h
              obtain ⟨hpres3, hlt3, hor3, hpre3⟩ := ih σ3 prior σ2 r2
                (Nat.lt_of_lt_of_le hp
                  (Nat.le_trans hpres1.1 hpres2.1)) h
              refine ⟨storePreserves_trans
                (storePreserves_trans hpres1 hpres2) hpres3, hlt3, ?_, ?_⟩
              · rcases hor3 with h3 | h3
                · exact Or.inl h3
                · exact Or.inr (Nat.le_trans
                    (Nat.le_trans hpres1.1 hpres2.1) h3)
              · have hcell : getCell σ3 prior = getCell σ prior := by
                  rw [hpres2.2 prior (Nat.lt_of_lt_of_le hp hpres1.1),
                      hpres1.2 prior hp]
                rw [← hcell]
                exact hpre3

/-- The same facts for `_implicit_join_helper`, by induction on fuel. -/
theorem implicitJoinHelper_frame (fks : Tbl → List (Col × Col)) :
    ∀ (fuel : Nat) (σ : Store) (start target : Tbl) (prior : Ref)
      (rev : Bool) (σ2 : Store) (r2 : Ref), prior < σ.length →
      implicitJoinHelper fks fuel σ start target prior rev =
        some (σ2, r2) →
      storePreserves σ σ2 ∧ r2 < σ2.length ∧
        (r2 = prior ∨ σ.length ≤ r2) ∧
        getCell σ prior <+: getCell σ2 r2 := by
  intro fuel
  induction fuel with
  | zero => intro σ start target prior rev σ2 r2 hp h; cases h
  | succ f ih =>
      intro σ start target prior rev σ2 r2 hp h
      simp only [implicitJoinHelper] at h
      by_cases he : (if rev then fks target else fks start).isEmpty
      · rw [if_pos he] at h
        cases h
        exact ⟨storePreserves_refl σ, hp, Or.inl rfl, List.prefix_refl _⟩
      · rw [if_neg he] at h
        exact helperGo_frame fks _ target rev
          (fun σa st pr σb rb hpa hr =>
            ih σa st target pr rev σb rb hpa hr) _ σ prior σ2 r2 hp h


theorem availScan_frame (fks : Tbl → List (Col × Col)) (hfuel : Nat)
    (target : Tbl) :
    ∀ (avail : List Tbl) (σ : Store) (joins : Ref), joins < σ.length →
      (match availScan fks hfuel target σ joins avail with
       | .found σ2 r2 =>
           storePreserves σ σ2 ∧ r2 < σ2.length ∧
             (r2 = joins ∨ σ.length ≤ r2) ∧
             getCell σ joins <+: getCell σ2 r2
       | .notFound σ2 => storePreserves σ σ2
       | .fuelOut => True) := by
  intro avail
  induction avail with
  | nil =>
      intro σ joins hj
      simp only [availScan]
      exact storePreserves_refl σ
  | cons a rest ih =>
      intro σ joins hj
      simp only [availScan]
      cases hf : implicitJoinHelper fks hfuel σ a target joins false with
      | none => simp
      | some pr1 =>
          obtain ⟨σ1, fwdRef⟩ := pr1
          obtain ⟨hpresF, hltF, horF, hpreF⟩ :=
            implicitJoinHelper_frame fks hfuel σ a target joins false
              σ1 fwdRef hj hf
          by_cases hd1 : dmem (getCell σ1 fwdRef) target
          · simp only [hd1, if_true]
            refine ⟨hpresF, hltF, horF, ?_⟩
            have : getCell σ joins <+: getCell σ1 fwdRef := hpreF
            exact this
          · simp only [hd1, Bool.false_eq_true, if_false]
            cases hrv : implicitJoinHelper fks hfuel σ1 a target joins
                true with
            | none => simp
            | some pr2 =>
                obtain ⟨σ2, revRef⟩ := pr2
                obtain ⟨hpresR, hltR, horR, hpreR⟩ :=
                  implicitJoinHelper_frame fks hfuel σ1 a target joins
                    true σ2 revRef (Nat.lt_of_lt_of_le hj hpresF.1) hrv
                have hcell1 : getCell σ1 joins = getCell σ joins :=
                  hpresF.2 joins hj
                by_cases hd2 : dmem (getCell σ2 revRef) target
                · simp only [hd2, if_true]
                  refine ⟨storePreserves_trans hpresF hpresR, hltR, ?_, ?_⟩
                  · rcases horR with h2 | h2
                    · exact Or.inl h2
                    · exact Or.inr (Nat.le_trans hpresF.1 h2)
                  · rw [← hcell1]
                    exact hpreR
                · simp only [hd2, Bool.false_eq_true, if_false]
                  have hij := ih σ2 joins
                    (Nat.lt_of_lt_of_le hj
                      (Nat.le_trans hpresF.1 hpresR.1))
                  cases hsc : availScan fks hfuel target σ2 joins rest with
                  | found σ3 r3 =>
                      rw [hsc] at hij
                      obtain ⟨hpres3, hlt3, hor3, hpre3⟩ := hij
                      refine ⟨storePreserves_trans
                        (storePreserves_trans hpresF hpresR) hpres3,
                        hlt3, ?_, ?_⟩
                      · rcases hor3 with h3 | h3
                        · exact Or.inl h3
                        · exact Or.inr (Nat.le_trans
                            (Nat.le_trans hpresF.1 hpresR.1) h3)
                      · have hcell2 : getCell σ2 joins = getCell σ joins := by
                          rw [hpresR.2 joins
                            (Nat.lt_of_lt_of_le hj hpresF.1), hcell1]
                        rw [← hcell2]
                        exact hpre3
                  | notFound σ3 =>
                      rw [hsc] at hij
                      exact storePreserves_trans
                        (storePreserves_trans hpresF hpresR) hij
                  | fuelOut => trivial

theorem joinLoop_frame (fks : Tbl → List (Col × Col)) (hfuel : Nat) :
    ∀ (targets avail : List Tbl) (σ : Store) (r : Ref), r < σ.length →
      (match joinLoop fks hfuel targets avail σ r with
       | .ok σ2 r2 =>
           storePreserves σ σ2 ∧ r2 < σ2.length ∧
             (r2 = r ∨ σ.length ≤ r2) ∧ getCell σ r <+: getCell σ2 r2
       | .unresolvable σ2 _ => storePreserves σ σ2
       | .fuelOut => True) := by
  intro targets
  induction targets with
  | nil =>
      intro avail σ r hr
      exact ⟨storePreserves_refl σ, hr, Or.inl rfl, List.prefix_refl _⟩
  | cons t rest ih =>
      intro avail σ r hr
      simp only [joinLoop]
      by_cases hc : avail.contains t
      · simp only [hc, if_true]
        exact ih (avail) σ r hr
      · simp only [hc, Bool.false_eq_true, if_false]
        have hscan := availScan_frame fks hfuel t avail σ r hr
        cases hsc : availScan fks hfuel t σ r avail with
        | found σ1 r1 =>
            rw [hsc] at hscan
            dsimp only
            obtain ⟨hpres1, hlt1, hor1, hpre1⟩ := hscan
            have hij := ih (avail ++ [t]) σ1 r1 hlt1
            cases hjl : joinLoop fks hfuel rest (avail ++ [t]) σ1 r1 with
            | ok σ2 r2 =>
                rw [hjl] at hij
                obtain ⟨hpres2, hlt2, hor2, hpre2⟩ := hij
                refine ⟨storePreserves_trans hpres1 hpres2, hlt2, ?_, ?_⟩
                · rcases hor2 with h2 | h2
                  · rw [h2]; exact hor1
                  · exact Or.inr (Nat.le_trans hpres1.1 h2)
                · exact hpre1.trans hpre2
            | unresolvable σ2 t2 =>
                rw [hjl] at hij
                exact storePreserves_trans hpres1 hij
            | fuelOut => trivial
        | notFound σ1 =>
            rw [hsc] at hscan
            dsimp only
            exact hscan
        | fuelOut => dsimp only

/-- C9: `implicit_join` never mutates the caller's `prior_joins` dict (nor
any other pre-existing dict), whether it returns or raises; on success the
returned dict is a different object whose contents extend the prior
entries (same bindings, same order) with the newly resolved joins. -/
theorem C9_no_mutation :
    ∀ (fks : Tbl → List (Col × Col)) (hfuel : Nat) (σ : Store)
      (start : Tbl) (targets : List Tbl) (prior : Ref),
      prior < σ.length →
      frameOK σ prior (implicit_join fks hfuel σ start targets prior) := by
  intro fks hfuel σ start targets prior hp
  have hloop := joinLoop_frame fks hfuel targets
    (start :: dkeys (getCell σ prior)) (σ ++ [getCell σ prior]) σ.length
    (by simp)
  show frameOK σ prior (joinLoop fks hfuel targets
    (start :: dkeys (getCell σ prior)) (σ ++ [getCell σ prior]) σ.length)
  cases hout : joinLoop fks hfuel targets
      (start :: dkeys (getCell σ prior)) (σ ++ [getCell σ prior])
      σ.length with
  | ok σ2 r2 =>
      rw [hout] at hloop
      obtain ⟨hpres, hlt, hor, hpre⟩ := hloop
      refine ⟨storePreserves_trans (storePreserves_append σ _) hpres,
        ?_, ?_⟩
      · rw [getCell_append_self] at hpre
        exact hpre
      · have hler : σ.length ≤ r2 := by
          rcases hor with h2 | h2
          · exact Nat.le_of_eq h2.symm
          · simp only [List.length_append, List.length_singleton] at h2
            exact Nat.le_of_succ_le h2
        intro heq
        rw [heq] at hler
        exact absurd (Nat.lt_of_lt_of_le hp hler) (Nat.lt_irrefl prior)
  | unresolvable σ2 t =>
      rw [hout] at hloop
      exact storePreserves_trans (storePreserves_append σ _) hloop
  | fuelOut => trivial

/-- C9 — witness: a run with one pre-existing prior-joins dict. -/
theorem C9_no_mutation_witness :
    (0 : Nat) < ([[(tA, joinCond aToB bId)]] : Store).length ∧
    frameOK [[(tA, joinCond aToB bId)]] 0
      (implicit_join fksChain 5 [[(tA, joinCond aToB bId)]] tA [tC] 0) :=
  ⟨by decide,
   C9_no_mutation fksChain 5 [[(tA, joinCond aToB bId)]] tA [tC] 0
     (by decide)⟩

/-! ### String and list lemmas for C4 -/

theorem append_ne_empty (p t : String) (h : p.length ≠ 0) :
    p ++ t ≠ "" := by
  intro he
  have hl := congrArg String.length he
  rw [String.length_append] at hl
  have h0 : ("" : String).length = 0 := rfl
  rw [h0] at hl
  omega

theorem psw_select (t : String) :
    pyStartsWith ("SELECT " ++ t) "WHERE" = false := rfl

theorem psw_from (t : String) :
    pyStartsWith ("FROM " ++ t) "WHERE" = false := rfl

theorem psw_join (t : String) :
    pyStartsWith ("JOIN " ++ t) "WHERE" = false := rfl

theorem psw_limit (t : String) :
    pyStartsWith ("LIMIT " ++ t) "WHERE" = false := rfl

theorem psw_offset (t : String) :
    pyStartsWith ("OFFSET " ++ t) "WHERE" = false := rfl

theorem psw_order (t : String) :
    pyStartsWith ("ORDER BY " ++ t) "WHERE" = false := rfl

theorem psw_where (t : String) :
    pyStartsWith ("WHERE " ++ t) "WHERE" = true := by
  show List.isPrefixOf _ _ = true
  rw [String.data_append]
  rfl

theorem findIdxq_cons (a : String) (l : List String)
    (p : String → Bool) :
    (a :: l).findIdx? p =
      if p a then some 0 else (l.findIdx? p).map (· + 1) := by
  simp [List.findIdx?]

theorem findIdxq_none (p : String → Bool) :
    ∀ (l : List String), (∀ c ∈ l, p c = false) → l.findIdx? p = none := by
  intro l
  induction l with
  | nil => intro _; rfl
  | cons a l ih =>
      intro h
      rw [findIdxq_cons, h a (List.mem_cons_self a l),
          ih (fun c hc => h c (List.mem_cons_of_mem a hc))]
      rfl

theorem findIdxq_append_none (p : String → Bool) :
    ∀ (l1 l2 : List String), (∀ c ∈ l1, p c = false) →
      (l1 ++ l2).findIdx? p = (l2.findIdx? p).map (· + l1.length) := by
  intro l1
  induction l1 with
  | nil =>
      intro l2 _
      simp
  | cons a l1 ih =>
      intro l2 h
      rw [List.cons_append, findIdxq_cons, h a (List.mem_cons_self a l1),
          ih l2 (fun c hc => h c (List.mem_cons_of_mem a hc))]
      simp only [Bool.false_eq_true, if_false, Option.map_map]
      cases l2.findIdx? p with
      | none => rfl
      | some x =>
          show some ((x + l1.length) + 1) = some (x + (l1.length + 1))
          congr 1

theorem insertIdx_at_len (x : String) :
    ∀ (l1 l2 : List String),
      List.insertIdx l1.length x (l1 ++ l2) = l1 ++ x :: l2 := by
  intro l1
  induction l1 with
  | nil => intro l2; rfl
  | cons a l1 ih => intro l2; exact congrArg (a :: ·) (ih l2)

theorem filter_empty_head (rest : List String) :
    ("" :: rest).filter (fun c => c ≠ "") =
      rest.filter (fun c => c ≠ "") := by
  simp [List.filter]

theorem filter_ne_head (a : String) (h : a ≠ "") (rest : List String) :
    (a :: rest).filter (fun c => c ≠ "") =
      a :: rest.filter (fun c => c ≠ "") := by
  simp [List.filter, h]

theorem filter_limitClause (lim : Option Int) (rest : List String) :
    (limitClause lim :: rest).filter (fun c => c ≠ "") =
      limList lim ++ rest.filter (fun c => c ≠ "") := by
  cases lim with
  | none => exact filter_empty_head rest
  | some n =>
      by_cases h0 : n = 0
      · simp only [limitClause, limList, h0, if_true]
        exact filter_empty_head rest
      · simp only [limitClause, limList, h0, if_false]
        rw [filter_ne_head _ (append_ne_empty _ _ (by decide)) rest]
        rfl

theorem filter_offsetClause (off : Option Int) (rest : List String) :
    (offsetClause off :: rest).filter (fun c => c ≠ "") =
      offList off ++ rest.filter (fun c => c ≠ "") := by
  cases off with
  | none => exact filter_empty_head rest
  | some n =>
      by_cases h0 : n = 0
      · simp only [offsetClause, offList, h0, if_true]
        exact filter_empty_head rest
      · simp only [offsetClause, offList, h0, if_false]
        rw [filter_ne_head _ (append_ne_empty _ _ (by decide)) rest]
        rfl

theorem filter_orderClause (ord : Option (List String)) :
    [orderClause ord].filter (fun c => c ≠ "") = ordList ord := by
  cases ord with
  | none => rfl
  | some l =>
      by_cases h0 : l = []
      · simp only [orderClause, ordList, h0, if_true]
        rfl
      · simp only [orderClause, ordList, h0, if_false]
        rw [filter_ne_head _ (append_ne_empty _ _ (by decide)) []]
        rfl

theorem renderJoins_shape (fuel : Nat) :
    ∀ (js : JoinList) (jcls : List String),
      renderJoins fuel js = .ok jcls →
      ∀ c ∈ jcls, ∃ t, c = "JOIN " ++ t := by
  intro js
  induction js with
  | nil =>
      intro jcls h
      cases h
      intro c hc
      cases hc
  | cons p js ih =>
      intro jcls h
      simp only [renderJoins, List.mapM_cons] at h
      cases hsp : strExpr fuel p.2 with
      | none => rw [hsp] at h; cases h
      | some vs =>
          rw [hsp] at h
          cases hm : js.mapM (fun p =>
              match strExpr fuel p.2 with
              | some vs => Except.ok ("JOIN " ++ p.1.name ++ " ON " ++ vs)
              | none => Except.error JErr.fuelOut) with
          | error e =>
              rw [hm] at h
              cases h
          | ok tail =>
              rw [hm] at h
              cases h
              intro c hc
              rcases List.mem_cons.mp hc with rfl | hc2
              · exact ⟨p.1.name ++ " ON " ++ vs, rfl⟩
              · exact ih tail hm c hc2

theorem selClause_shape (fuel : Nat) (c : Cols) (sel : String)
    (h : selClause fuel c = .ok sel) : ∃ t, sel = "SELECT " ++ t := by
  cases c with
  | star => cases h; exact ⟨"*", rfl⟩
  | single e =>
      simp only [selClause] at h
      cases he : strExpr fuel e with
      | none => rw [he] at h; cases h
      | some es => rw [he] at h; cases h; exact ⟨es, rfl⟩
  | lst l =>
      simp only [selClause] at h
      cases hm : l.mapM (fun v =>
          match strSV fuel v with
          | some vs => Except.ok vs
          | none => Except.error JErr.fuelOut) with
      | error e => rw [hm] at h; cases h
      | ok strs =>
          rw [hm, exceptBind_ok] at h
          cases h
          exact ⟨String.intercalate ", " strs, rfl⟩


theorem psw_limList (lim : Option Int) :
    ∀ c ∈ limList lim, pyStartsWith c "WHERE" = false := by
  intro c hc
  cases lim with
  | none => cases hc
  | some n =>
      by_cases h0 : n = 0
      · simp [limList, h0] at hc
      · simp only [limList, h0, if_false, List.mem_singleton] at hc
        subst hc
        exact psw_limit _

theorem psw_offList (off : Option Int) :
    ∀ c ∈ offList off, pyStartsWith c "WHERE" = false := by
  intro c hc
  cases off with
  | none => cases hc
  | some n =>
      by_cases h0 : n = 0
      · simp [offList, h0] at hc
      · simp only [offList, h0, if_false, List.mem_singleton] at hc
        subst hc
        exact psw_offset _

theorem psw_ordList (ord : Option (List String)) :
    ∀ c ∈ ordList ord, pyStartsWith c "WHERE" = false := by
  intro c hc
  cases ord with
  | none => cases hc
  | some l =>
      by_cases h0 : l = []
      · simp [ordList, h0] at hc
      · simp only [ordList, h0, if_false, List.mem_singleton] at hc
        subst hc
        exact psw_order _

/-- Evaluation of `BaseStatement.clauses` once the joins and the WHERE
expression have rendered: the empty-string filter keeps FROM and the JOIN
clauses and reduces each remaining slot to its contribution list —
dropping WHERE when unset, and LIMIT/OFFSET/ORDER BY when unset *or
falsy*. -/
theorem baseClauses_spec (fks : Tbl → List (Col × Col)) (hfuel fuel : Nat)
    (s : SelectStmt) (js : JoinList) (jcls : List String)
    (wOpt : Option String)
    (hjs : resolvedJoins fks hfuel s = .ok js)
    (hjc : renderJoins fuel js = .ok jcls)
    (hw : renderOptE fuel s.whereE = some wOpt) :
    baseClauses fks hfuel fuel s =
      .ok (["FROM " ++ s.table.name] ++ jcls ++ wList wOpt
            ++ limList s.limit ++ offList s.offset
            ++ ordList s.order_by) := by
  have hjshape := renderJoins_shape fuel js jcls hjc
  have hjfilter : jcls.filter (fun c => c ≠ "") = jcls := by
    apply List.filter_eq_self.mpr
    intro a ha
    rcases hjshape a ha with ⟨t, rfl⟩
    exact decide_eq_true (append_ne_empty _ _ (by decide))
  cases hwe : s.whereE with
  | none =>
      rw [hwe] at hw
      simp only [renderOptE] at hw
      cases hw
      simp only [baseClauses, hjs, exceptBind_ok, hjc, hwe]
      congr 1
      rw [List.filter_append, List.filter_append, hjfilter,
          filter_ne_head ("FROM " ++ s.table.name)
            (append_ne_empty "FROM " s.table.name (by decide)),
          filter_empty_head, filter_limitClause, filter_offsetClause,
          filter_orderClause]
      simp [wList, List.append_assoc]
  | some w =>
      rw [hwe] at hw
      simp only [renderOptE] at hw
      cases hs : strExpr fuel w with
      | none => rw [hs] at hw; simp at hw
      | some ws =>
          rw [hs] at hw
          have hw2 : some (some ws) = some wOpt := hw
          cases hw2
          simp only [baseClauses, hjs, exceptBind_ok, hjc, hwe, hs]
          congr 1
          rw [List.filter_append, List.filter_append, hjfilter,
              filter_ne_head ("FROM " ++ s.table.name)
                (append_ne_empty "FROM " s.table.name (by decide)),
              filter_ne_head ("WHERE " ++ ws)
                (append_ne_empty "WHERE " ws (by decide)),
              filter_limitClause, filter_offsetClause, filter_orderClause]
          simp [wList, List.append_assoc]


/-- C4: the claim as stated is refuted by a statement whose `limit`
field is *set* — to 0 — yet whose rendered clause list omits the LIMIT
clause entirely: `filter(bool, ...)` drops the falsy-valued rendering,
not only unset fields. -/
theorem C4_counterexample :
    c4Stmt.limit = some 0 ∧
    selectClauses (fun _ => []) 1 1 c4Stmt =
      .ok ["SELECT *", "FROM ta"] ∧
    "LIMIT 0" ∉ ["SELECT *", "FROM ta"] :=
  ⟨rfl, rfl, by decide⟩

/-- C4 (amended): whenever the joins, WHERE, GROUP BY and HAVING of a
Select render, `Select.clauses` returns exactly the sequence SELECT,
FROM, one JOIN per resolved join in order, GROUP BY immediately before
WHERE when both are present, WHERE, LIMIT, OFFSET, ORDER BY, then GROUP
BY when WHERE is absent, and HAVING last — where a clause whose field is
unset *or falsy* (LIMIT 0, OFFSET 0, empty ORDER BY) is omitted
(`clausesSpec` spells the sequence out). -/
theorem C4_clause_order (fks : Tbl → List (Col × Col)) (hfuel fuel : Nat)
    (s : SelectStmt) (js : JoinList) (jcls : List String) (sel : String)
    (wOpt gbOpt hvOpt : Option String)
    (hjs : resolvedJoins fks hfuel s = .ok js)
    (hjc : renderJoins fuel js = .ok jcls)
    (hsel : selClause fuel s.cols = .ok sel)
    (hw : renderOptE fuel s.whereE = some wOpt)
    (hgb : renderOptSV fuel s.group_by = some gbOpt)
    (hhv : renderOptE fuel s.having = some hvOpt) :
    selectClauses fks hfuel fuel s =
      .ok (clausesSpec sel s.table.name jcls wOpt gbOpt hvOpt
            s.limit s.offset s.order_by) := by
  have hbase := baseClauses_spec fks hfuel fuel s js jcls wOpt hjs hjc hw
  obtain ⟨selT, rfl⟩ := selClause_shape fuel s.cols sel hsel
  have hjshape := renderJoins_shape fuel js jcls hjc
  have hjpsw : ∀ c ∈ jcls, pyStartsWith c "WHERE" = false := by
    intro c hc
    rcases hjshape c hc with ⟨t, rfl⟩
    exact psw_join t
  cases hge : s.group_by with
  | none =>
      rw [hge] at hgb
      simp only [renderOptSV] at hgb
      cases hgb
      cases hhe : s.having with
      | none =>
          rw [hhe] at hhv
          simp only [renderOptE] at hhv
          cases hhv
          simp only [selectClauses, hsel, exceptBind_ok, hbase, hge, hhe]
          congr 1
          cases wOpt <;> simp [clausesSpec, wList, List.append_assoc]
      | some hv =>
          rw [hhe] at hhv
          simp only [renderOptE] at hhv
          cases hsv : strExpr fuel hv with
          | none => rw [hsv] at hhv; simp at hhv
          | some hstr =>
              rw [hsv] at hhv
              have hhv2 : some (some hstr) = some hvOpt := hhv
              cases hhv2
              simp only [selectClauses, hsel, exceptBind_ok, hbase, hge,
                hhe, hsv]
              congr 1
              cases wOpt <;> simp [clausesSpec, wList, List.append_assoc]
  | some g =>
      rw [hge] at hgb
      simp only [renderOptSV] at hgb
      cases hgs : strSV fuel g with
      | none => rw [hgs] at hgb; simp at hgb
      | some gs =>
          rw [hgs] at hgb
          have hgb2 : some (some gs) = some gbOpt := hgb
          cases hgb2
          cases wOpt with
          | none =>
              have hnone : (("SELECT " ++ selT) ::
                  (["FROM " ++ s.table.name] ++ jcls ++ wList none
                    ++ limList s.limit ++ offList s.offset
                    ++ ordList s.order_by)).findIdx?
                    (fun c => pyStartsWith c "WHERE") = none := by
                apply findIdxq_none
                intro c hc
                rcases List.mem_cons.mp hc with rfl | h1
                · exact psw_select selT
                rcases List.mem_append.mp h1 with h2 | h9
                · rcases List.mem_append.mp h2 with h3 | h8
                  · rcases List.mem_append.mp h3 with h4 | h7
                    · rcases List.mem_append.mp h4 with h5 | h6
                      · rcases List.mem_append.mp h5 with h5a | h5b
                        · rw [List.mem_singleton] at h5a
                          subst h5a
                          exact psw_from _
                        · exact hjpsw c h5b
                      · simp [wList] at h6
                    · exact psw_limList _ c h7
                  · exact psw_offList _ c h8
                · exact psw_ordList _ c h9
              cases hhe : s.having with
              | none =>
                  rw [hhe] at hhv
                  simp only [renderOptE] at hhv
                  cases hhv
                  simp only [selectClauses, hsel, exceptBind_ok, hbase,
                    hge, hgs, hhe, insertBeforeWhere, hnone]
                  congr 1
                  simp [clausesSpec, wList, List.append_assoc]
              | some hv =>
                  rw [hhe] at hhv
                  simp only [renderOptE] at hhv
                  cases hsv : strExpr fuel hv with
                  | none => rw [hsv] at hhv; simp at hhv
                  | some hstr =>
                      rw [hsv] at hhv
                      have hhv2 : some (some hstr) = some hvOpt := hhv
                      cases hhv2
                      simp only [selectClauses, hsel, exceptBind_ok,
                        hbase, hge, hgs, hhe, hsv, insertBeforeWhere,
                        hnone]
                      congr 1
                      try simp [clausesSpec, wList, List.append_assoc]
          | some ws =>
              have hsplit : ("SELECT " ++ selT) ::
                  (["FROM " ++ s.table.name] ++ jcls ++ wList (some ws)
                    ++ limList s.limit ++ offList s.offset
                    ++ ordList s.order_by) =
                  (("SELECT " ++ selT) :: ("FROM " ++ s.table.name)
                      :: jcls) ++
                    (("WHERE " ++ ws) :: (limList s.limit
                      ++ offList s.offset ++ ordList s.order_by)) := by
                simp [wList, List.append_assoc]
              have hl1 : ∀ c ∈ ("SELECT " ++ selT) ::
                  ("FROM " ++ s.table.name) :: jcls,
                  (fun c => pyStartsWith c "WHERE") c = false := by
                intro c hc
                rcases List.mem_cons.mp hc with rfl | h1
                · exact psw_select selT
                rcases List.mem_cons.mp h1 with rfl | h2
                · exact psw_from _
                · exact hjpsw c h2
              have hfind : ((("SELECT " ++ selT) ::
                    ("FROM " ++ s.table.name) :: jcls) ++
                  (("WHERE " ++ ws) :: (limList s.limit
                    ++ offList s.offset ++ ordList s.order_by))).findIdx?
                  (fun c => pyStartsWith c "WHERE") =
                  some (("SELECT " ++ selT) ::
                    ("FROM " ++ s.table.name) :: jcls).length := by
                rw [findIdxq_append_none _ _ _ hl1, findIdxq_cons]
                simp [psw_where]
              cases hhe : s.having with
              | none =>
                  rw [hhe] at hhv
                  simp only [renderOptE] at hhv
                  cases hhv
                  simp only [selectClauses, hsel, exceptBind_ok, hbase,
                    hge, hgs, hhe, insertBeforeWhere, hsplit, hfind]
                  rw [insertIdx_at_len]
                  congr 1
                  simp [clausesSpec, List.append_assoc]
              | some hv =>
                  rw [hhe] at hhv
                  simp only [renderOptE] at hhv
                  cases hsv : strExpr fuel hv with
                  | none => rw [hsv] at hhv; simp at hhv
                  | some hstr =>
                      rw [hsv] at hhv
                      have hhv2 : some (some hstr) = some hvOpt := hhv
                      cases hhv2
                      simp only [selectClauses, hsel, exceptBind_ok,
                        hbase, hge, hgs, hhe, hsv, insertBeforeWhere,
                        hsplit, hfind]
                      rw [insertIdx_at_len]
                      congr 1
                      simp [clausesSpec, List.append_assoc]

/-- C4 witness: a Select with an explicit join, WHERE, GROUP BY, LIMIT 5,
OFFSET 2, ORDER BY and HAVING renders with every hypothesis of
`C4_clause_order` discharged at the concrete input. -/
theorem C4_clause_order_witness :
    selectClauses (fun _ => []) 1 3 w4Stmt =
      .ok (clausesSpec "SELECT *" "ta" ["JOIN tb ON tb.c_id = tc.id"]
            (some "ta.b_id = tb.id") (some "ta.b_id")
            (some "tb.c_id = tc.id") (some 5) (some 2)
            (some ["ta.b_id"])) :=
  C4_clause_order (fun _ => []) 1 3 w4Stmt [(tB, sampleB)]
    ["JOIN tb ON tb.c_id = tc.id"] "SELECT *"
    (some "ta.b_id = tb.id") (some "ta.b_id") (some "tb.c_id = tc.id")
    rfl rfl rfl rfl rfl rfl

end HissDB
